import Mathlib

/-
Verification development for the cerios-builder library.

Two models are built from the TypeScript sources:

1. A pure value model (namespace Cerios): JavaScript values are the
   inductive type Jx, the plain-record builder CeriosBuilder and the
   class builder CeriosClassBuilder are records, and every method is a
   pure function transcribed from its source body.  Claims about the
   values computed by the library (required-field validation, error
   messages, nested updates, validator aggregation, class construction)
   are settled here.

2. A heap model (namespace CeriosH): JavaScript objects live in an
   explicit store of cells addressed by natural numbers, so object
   identity, mutation, freezing and sealing are observable.  Claims
   about aliasing and in-place effects are settled here.
-/

namespace Cerios

/-- Primitive JavaScript values: null, undefined, strings, numbers and
booleans.  Numbers are modelled as integers; no claim depends on
fractional or special float values. -/
inductive Prim where
  | pnull
  | pundefv
  | pstr (s : String)
  | pnum (n : Int)
  | pbool (b : Bool)
  deriving DecidableEq

/-- Pure JavaScript-like values: a primitive, an object (an ordered list
of own enumerable string-keyed fields, as JavaScript objects enumerate
them), or an array. -/
inductive Jx where
  | prim (p : Prim)
  | obj (fs : List (String × Jx))
  | arr (es : List Jx)

/-- The undefined value. -/
def jundefv : Jx := .prim .pundefv

/-- The null value. -/
def jnull : Jx := .prim .pnull

/-- Tests whether a value is null or undefined (the two cases the
library treats as absent). -/
def isNullOrUndefined : Jx → Bool
  | .prim .pnull => true
  | .prim .pundefv => true
  | _ => false

/-- Splits a string at every dot, like the JavaScript
path.split(".") used by the library; the result is never empty. -/
def splitDotAux : List Char → List Char → List String
  | [], acc => [String.mk acc.reverse]
  | c :: cs, acc =>
    if c = '.' then String.mk acc.reverse :: splitDotAux cs []
    else splitDotAux cs (c :: acc)

/-- Splits a dot-separated address into its segments. -/
def splitDot (s : String) : List String :=
  splitDotAux s.data []

/-- Parses a canonical decimal numeral, the only strings that denote
array index properties in JavaScript ("0", "1", ..., with no leading
zeros except "0" itself). -/
def decIndex? (s : String) : Option Nat :=
  match s.data with
  | [] => none
  | c :: cs =>
    if (c :: cs).all Char.isDigit && (c = '0' → cs = []) then
      some ((c :: cs).foldl (fun a d => a * 10 + (d.toNat - 48)) 0)
    else none

/-- Looks up an own field of an object field list (the first entry with
the key, as JavaScript property lookup). -/
def lookupField : List (String × Jx) → String → Option Jx
  | [], _ => none
  | f :: fs, k => if f.1 = k then some f.2 else lookupField fs k

/-- The JavaScript in operator, restricted to own properties as the
library uses it.  On an object it tests field membership; on an array
the own keys are the canonical indices below the length plus "length";
on a primitive the in operator throws a TypeError, modelled as none.
Null and undefined receivers are always guarded before this is
reached. -/
def keyIn : Jx → String → Option Bool
  | .obj fs, k => some (fs.any (fun f => f.1 = k))
  | .arr es, k =>
    some ((match decIndex? k with
           | some n => decide (n < es.length)
           | none => false) || k = "length")
  | .prim _, _ => none

/-- JavaScript property read current[key].  Missing keys read as
undefined; arrays expose their elements at canonical indices and their
length; property access on a (non-null, non-undefined) primitive yields
undefined for every key the library ever reads. -/
def getProp : Jx → String → Jx
  | .obj fs, k =>
    match lookupField fs k with
    | some v => v
    | none => .prim .pundefv
  | .arr es, k =>
    if k = "length" then .prim (.pnum es.length)
    else
      match decIndex? k with
      | some n => es.getD n (.prim .pundefv)
      | none => .prim .pundefv
  | .prim _, _ => .prim .pundefv

/-- Sets a field in an object field list the way a JavaScript property
write does: an existing key keeps its position and is overwritten, a
new key is appended at the end. -/
def setField (fs : List (String × Jx)) (k : String) (v : Jx) : List (String × Jx) :=
  if fs.any (fun f => f.1 = k) then
    fs.map (fun f => if f.1 = k then (k, v) else f)
  else fs ++ [(k, v)]

/-- JavaScript property write current[key] = v.  On objects this is
setField; on arrays only writes at canonical in-range indices (or the
appending index) are modelled, because the typed path
addressing never routes a write through an array; writes on primitives
are silently dropped, as in non-strict JavaScript. -/
def setProp : Jx → String → Jx → Jx
  | .obj fs, k, v => .obj (setField fs k v)
  | .arr es, k, v =>
    (match decIndex? k with
     | some n =>
       if n < es.length then .arr (es.set n v)
       else if n = es.length then .arr (es ++ [v])
       else .arr es
     | none => .arr es)
  | .prim p, _, _ => .prim p

/-- Deduplicates a list keeping first occurrences, the behaviour of
building a JavaScript Set from a list and spreading it back. -/
def jsSetDedup (xs : List String) : List String :=
  xs.foldl (fun acc x => if x ∈ acc then acc else acc ++ [x]) []

/-- Results a custom validator can return: true (pass), false (fail
with the generic message) or a string (fail with that message). -/
inductive ValidatorResult where
  | vtrue
  | vfalse
  | vmsg (s : String)
  deriving DecidableEq

/-- The plain-record builder family.  A builder value carries the
static required-field template of its concrete class, the
instance-level dynamic required fields (the _requiredFields set, in
insertion order), the registered custom validators, and the partial
instance _actual.  The validators field is modelled from the spec: the
addValidator machinery is exercised by the repository tests but its
implementation is not under src/. -/
structure CeriosBuilder where
  requiredTemplate : List String
  requiredFields : List String
  validators : List (Jx → ValidatorResult)
  actual : Jx

namespace CeriosBuilder

/-- Transcribes setRequiredFields: the instance-level list is replaced
by a fresh deduplicated set built from the argument.  In the source the
receiver is mutated and returned; the heap layer models that aspect,
here the resulting builder state is returned. -/
def setRequiredFields (b : CeriosBuilder) (fields : List String) : CeriosBuilder :=
  { b with requiredFields := jsSetDedup fields }

/-- Transcribes getRequiredTemplate: the static template combined with
the instance fields and deduplicated via a Set. -/
def getRequiredTemplate (b : CeriosBuilder) : List String :=
  jsSetDedup (b.requiredTemplate ++ b.requiredFields)

/-- The inner for-loop of validateRequiredFields: walks the keys,
returning whether the loop broke early (pushing the path) and the value
of current when the loop ended.  A TypeError (the in operator applied
to a primitive) is propagated as an error. -/
def walkLoop : Jx → List String → Except String (Bool × Jx)
  | current, [] => .ok (false, current)
  | current, key :: rest =>
    if isNullOrUndefined current then .ok (true, current)
    else
      match keyIn current key with
      | none => .error ("TypeError: cannot use the in operator on a primitive")
      | some false => .ok (true, current)
      | some true => walkLoop (getProp current key) rest

/-- Processes one path of the required template against the partial
instance, extending the missing list exactly as the source does: push
on early break, then push again at the end if the terminal value is
null or undefined and the path is not already recorded. -/
def validateOnePath (actual : Jx) (missing : List String) (path : String) : Except String (List String) :=
  match walkLoop actual (splitDot path) with
  | .error e => .error e
  | .ok (broke, current) =>
    let m1 := if broke then missing ++ [path] else missing
    if isNullOrUndefined current && !(m1.contains path) then .ok (m1 ++ [path])
    else .ok m1

/-- Folds validateOnePath over all template paths in order. -/
def validateAll (actual : Jx) : List String → List String → Except String (List String)
  | [], missing => .ok missing
  | path :: rest, missing =>
    match validateOnePath actual missing path with
    | .error e => .error e
    | .ok m1 => validateAll actual rest m1

/-- Transcribes validateRequiredFields: walks every path of the
effective required template against the partial instance and returns
the missing addresses in template order. -/
def validateRequiredFields (b : CeriosBuilder) : Except String (List String) :=
  validateAll b.actual (getRequiredTemplate b) []

/-- Transcribes setProperty: spreads the partial instance into a fresh
object with the key overwritten, carrying the required fields (and, in
the later sources, the validators) into the new builder. -/
def setProperty (b : CeriosBuilder) (key : String) (value : Jx) : CeriosBuilder :=
  { b with actual := setProp b.actual key value }

/-- Transcribes setProperties: spreads the partial instance and then
all given properties, in order, into a fresh object. -/
def setProperties (b : CeriosBuilder) (props : List (String × Jx)) : CeriosBuilder :=
  { b with actual := props.foldl (fun a p => setProp a p.1 p.2) b.actual }

/-- Transcribes addToArrayProperty: reads the current array at the key
(null or undefined default to the empty array via the nullish
operator; a non-array value cannot arise for an array-typed property
through the typed interface) and binds the key to a fresh array with
the value appended. -/
def addToArrayProperty (b : CeriosBuilder) (key : String) (value : Jx) : CeriosBuilder :=
  let currentArray : List Jx :=
    match getProp b.actual key with
    | .arr es => es
    | _ => []
  { b with actual := setProp b.actual key (.arr (currentArray ++ [value])) }

mutual
/-- Transcribes the private deepClone helper: primitives are returned
as they are, arrays are cloned elementwise, objects are cloned own
field by own field. -/
def deepClone : Jx → Jx
  | .prim p => .prim p
  | .arr es => .arr (deepCloneElems es)
  | .obj fs => .obj (deepCloneFields fs)

/-- Clones the elements of an array. -/
def deepCloneElems : List Jx → List Jx
  | [] => []
  | v :: vs => deepClone v :: deepCloneElems vs

/-- Clones the fields of an object. -/
def deepCloneFields : List (String × Jx) → List (String × Jx)
  | [] => []
  | f :: fs => (f.1, deepClone f.2) :: deepCloneFields fs
end

/-- The walking part of setNestedProperty, applied to the deep clone of
the partial instance: for every segment but the last, a missing,
primitive or null child is replaced by a fresh empty object while an
object or array child is deep-cloned, then the walk descends; the last
segment is assigned the value. -/
def setNestedGo : Jx → List String → Jx → Jx
  | current, [], _ => current
  | current, [last], value => setProp current last value
  | current, key :: rest, value =>
    match getProp current key with
    | .prim _ => setProp current key (setNestedGo (.obj []) rest value)
    | .obj fs => setProp current key (setNestedGo (deepClone (.obj fs)) rest value)
    | .arr es => setProp current key (setNestedGo (deepClone (.arr es)) rest value)

/-- Transcribes setNestedProperty: deep-clones the partial instance,
walks the dot-separated path creating empty objects where needed, and
assigns the value at the final segment; the required fields are carried
over into the new builder. -/
def setNestedProperty (b : CeriosBuilder) (path : String) (value : Jx) : CeriosBuilder :=
  { b with actual := setNestedGo (deepClone b.actual) (splitDot path) value }

/-- The exact message raised when required fields are missing. -/
def missingFieldsMessage (missing : List String) : String :=
  "Missing required fields: " ++ String.intercalate (", ") missing ++ ". Please set these fields before calling build."

/-- Transcribes build (the compile-time checked variant, which also
validates at runtime): raises when any required field is missing,
otherwise returns the accumulated instance. -/
def build (b : CeriosBuilder) : Except String Jx :=
  match validateRequiredFields b with
  | .error e => .error e
  | .ok missing =>
    if missing.length > 0 then .error (missingFieldsMessage missing)
    else .ok b.actual

/-- Transcribes buildWithoutCompileTimeValidation: identical runtime
behaviour to build. -/
def buildWithoutCompileTimeValidation (b : CeriosBuilder) : Except String Jx :=
  match validateRequiredFields b with
  | .error e => .error e
  | .ok missing =>
    if missing.length > 0 then .error (missingFieldsMessage missing)
    else .ok b.actual

/-- Transcribes buildSafe, an alias for
buildWithoutCompileTimeValidation. -/
def buildSafe (b : CeriosBuilder) : Except String Jx :=
  buildWithoutCompileTimeValidation b

/-- Transcribes buildUnsafe: returns the accumulated instance with no
checks at all. -/
def buildUnsafe (b : CeriosBuilder) : Jx :=
  b.actual

/-- Transcribes buildPartial: returns the accumulated partial instance
as it is. -/
def buildPartial (b : CeriosBuilder) : Jx :=
  b.actual

/-- Transcribes the value-level behaviour of buildFrozen: the freeze
itself acts on the heap and is modelled in the heap layer; the
validation and the returned value are as in build. -/
def buildFrozen (b : CeriosBuilder) : Except String Jx :=
  match validateRequiredFields b with
  | .error e => .error e
  | .ok missing =>
    if missing.length > 0 then .error (missingFieldsMessage missing)
    else .ok b.actual

/-- Transcribes the value-level behaviour of buildDeepFrozen. -/
def buildDeepFrozen (b : CeriosBuilder) : Except String Jx :=
  match validateRequiredFields b with
  | .error e => .error e
  | .ok missing =>
    if missing.length > 0 then .error (missingFieldsMessage missing)
    else .ok b.actual

/-- Transcribes the value-level behaviour of buildSealed. -/
def buildSealed (b : CeriosBuilder) : Except String Jx :=
  match validateRequiredFields b with
  | .error e => .error e
  | .ok missing =>
    if missing.length > 0 then .error (missingFieldsMessage missing)
    else .ok b.actual

/-- Transcribes the value-level behaviour of buildDeepSealed. -/
def buildDeepSealed (b : CeriosBuilder) : Except String Jx :=
  match validateRequiredFields b with
  | .error e => .error e
  | .ok missing =>
    if missing.length > 0 then .error (missingFieldsMessage missing)
    else .ok b.actual

/-- Modelled from the spec: addValidator appends a validator to the
ordered validator list of the builder (the implementation is exercised
by the repository tests but is not under src/). -/
def addValidator (b : CeriosBuilder) (f : Jx → ValidatorResult) : CeriosBuilder :=
  { b with validators := b.validators ++ [f] }

/-- Translates one validator result into its collected failure message:
passing validators contribute nothing, false contributes the generic
message, a string contributes itself. -/
def failureMessage : ValidatorResult → Option String
  | .vtrue => none
  | .vfalse => some ("Validation failed")
  | .vmsg s => some s

/-- Modelled from the spec: renders the aggregated validator failure
message; a lone boolean-false failure renders as the bare generic
message, otherwise all collected messages are joined after the fixed
prefix. -/
def renderValidatorError (results : List ValidatorResult) : String :=
  if results.filter (fun r => r ≠ ValidatorResult.vtrue) = [ValidatorResult.vfalse] then
    "Validation failed"
  else
    "Validation failed: " ++ String.intercalate ("; ") (results.filterMap failureMessage)

/-- Modelled from the spec: a checked finalize that, after the
required-field pass, runs every registered validator in registration
order against the partial instance, collects every failure and raises
with the aggregated message if any were collected. -/
def buildWithValidators (b : CeriosBuilder) : Except String Jx :=
  match validateRequiredFields b with
  | .error e => .error e
  | .ok missing =>
    if missing.length > 0 then .error (missingFieldsMessage missing)
    else
      let results := b.validators.map (fun f => f b.actual)
      if results.any (fun r => r ≠ ValidatorResult.vtrue) then
        .error (renderValidatorError results)
      else .ok b.actual

end CeriosBuilder

/-- The specification-side walk for one required address (named after
the spec, for the refinement comparison): an address is missing when
some intermediate node is null/undefined or lacks the next segment as
an own key, or when the walk completes on a null/undefined terminal
value. -/
def specOwnKey : Jx → String → Bool
  | .obj fs, k => fs.any (fun f => f.1 = k)
  | .arr es, k =>
    (match decIndex? k with
     | some n => decide (n < es.length)
     | none => false) || k = "length"
  | .prim _, _ => false

/-- Specification-side missing test over the segments of an address. -/
def specMissingWalk : Jx → List String → Bool
  | current, [] => isNullOrUndefined current
  | current, key :: rest =>
    isNullOrUndefined current || !(specOwnKey current key) || specMissingWalk (getProp current key) rest

/-- Specification-side missing test for a dot-separated address. -/
def specMissingAddress (actual : Jx) (path : String) : Bool :=
  specMissingWalk actual (splitDot path)

/-- The finalize variants of the plain-record family that perform the
runtime required-field check, as one type so that claims can quantify
over them. -/
inductive BuildVariant where
  | buildV
  | safeV
  | withoutCompileTimeV
  | frozenV
  | deepFrozenV
  | sealedV
  | deepSealedV
  deriving DecidableEq

/-- Dispatches a checked finalize variant of the plain-record
family. -/
def runBuild (v : BuildVariant) (b : CeriosBuilder) : Except String Jx :=
  match v with
  | .buildV => CeriosBuilder.build b
  | .safeV => CeriosBuilder.buildSafe b
  | .withoutCompileTimeV => CeriosBuilder.buildWithoutCompileTimeValidation b
  | .frozenV => CeriosBuilder.buildFrozen b
  | .deepFrozenV => CeriosBuilder.buildDeepFrozen b
  | .sealedV => CeriosBuilder.buildSealed b
  | .deepSealedV => CeriosBuilder.buildDeepSealed b

/-- Specification-side nested update (named after the spec, for the
refinement comparison with setNestedProperty): walk the segments but
the last, keeping an object or array child and replacing a missing or
non-object child by a fresh empty object, then bind the final segment
to the value. -/
def specSetNested : Jx → List String → Jx → Jx
  | current, [], _ => current
  | current, [last], value => setProp current last value
  | current, key :: rest, value =>
    match getProp current key with
    | .prim _ => setProp current key (specSetNested (.obj []) rest value)
    | .obj fs => setProp current key (specSetNested (.obj fs) rest value)
    | .arr es => setProp current key (specSetNested (.arr es) rest value)

/-- Reads the value at a segment path. -/
def getPath : Jx → List String → Jx
  | current, [] => current
  | current, key :: rest => getPath (getProp current key) rest

/-- Whether every node that a nested write walks through (the root and
the nodes at the listed intermediate segments, after the replacement of
non-object children by fresh objects) is a plain object.  The typed
path addressing guarantees this: addresses never route through arrays
or primitives. -/
def pathObjsOnly : Jx → List String → Bool
  | .obj _, [] => true
  | .obj fs, key :: rest =>
    (match getProp (.obj fs) key with
     | .arr _ => false
     | .obj gs => pathObjsOnly (.obj gs) rest
     | .prim _ => pathObjsOnly (.obj []) rest)
  | _, _ => false

/-- A constructed class instance: its data fields (own enumerable
properties) and the names of the behaviour members (methods, which live
on the prototype and are untouched by field assignment). -/
structure ClassInstance where
  fields : List (String × Jx)
  methods : List String

/-- Reads a field of a constructed instance; an absent field reads as
undefined, exactly the test instance[key] === undefined performs. -/
def instanceGet (inst : ClassInstance) (k : String) : Jx :=
  match lookupField inst.fields k with
  | some v => v
  | none => .prim .pundefv

/-- Tests for the undefined value. -/
def isUndefined : Jx → Bool
  | .prim .pundefv => true
  | _ => false

/-- JavaScript Object.assign(target, source) restricted to data
fields: every own enumerable field of the source is written onto the
target in order. -/
def objectAssign (target source : List (String × Jx)) : List (String × Jx) :=
  source.foldl (fun t p => setField t p.1 p.2) target

/-- The class-instance builder family: a stored class constructor (an
arbitrary function from the passed partial data to a constructed
instance) and the accumulated partial instance. -/
structure CeriosClassBuilder where
  classCtor : List (String × Jx) → ClassInstance
  actual : List (String × Jx)

namespace CeriosClassBuilder

/-- Transcribes the construction block shared verbatim by build,
buildWithoutCompileTimeValidation, buildUnsafe, buildFrozen,
buildDeepFrozen, buildSealed and buildDeepSealed: invoke the stored
class constructor on the accumulated partial instance, then, if some
key of the partial instance is defined there but reads as undefined on
the constructed instance, assign all partial-instance fields onto the
instance. -/
def constructInstance (b : CeriosClassBuilder) : ClassInstance :=
  let inst := b.classCtor b.actual
  let dataKeys := b.actual.map (fun f => f.1)
  let needsAssign := dataKeys.any (fun key =>
    isUndefined (instanceGet inst key) && !(isUndefined (getProp (.obj b.actual) key)))
  if needsAssign then { inst with fields := objectAssign inst.fields b.actual }
  else inst

/-- Transcribes build for the class family (the compile-time checked
variant; its body is the shared construction block). -/
def build (b : CeriosClassBuilder) : ClassInstance :=
  constructInstance b

/-- Transcribes buildWithoutCompileTimeValidation for the class
family. -/
def buildWithoutCompileTimeValidation (b : CeriosClassBuilder) : ClassInstance :=
  constructInstance b

/-- Transcribes buildUnsafe for the class family. -/
def buildUnsafe (b : CeriosClassBuilder) : ClassInstance :=
  constructInstance b

end CeriosClassBuilder

/-- The class-family build variants modelled at the value level, as one
type. -/
inductive ClassBuildVariant where
  | buildV
  | withoutCompileTimeV
  | uncheckedV
  deriving DecidableEq

/-- Dispatches a class-family build variant. -/
def runClassBuild (v : ClassBuildVariant) (b : CeriosClassBuilder) : ClassInstance :=
  match v with
  | .buildV => CeriosClassBuilder.build b
  | .withoutCompileTimeV => CeriosClassBuilder.buildWithoutCompileTimeValidation b
  | .uncheckedV => CeriosClassBuilder.buildUnsafe b

end Cerios

namespace CeriosH

/-- Heap addresses of JavaScript objects. -/
abbrev Ref := Nat

/-- A heap value: a primitive, or a reference to a heap cell. -/
inductive HVal where
  | prim (p : Cerios.Prim)
  | ref (r : Ref)
  deriving DecidableEq

/-- A heap cell: a plain object, an array, or a string Set (the
_requiredFields member of a builder). -/
inductive HCell where
  | obj (fields : List (String × HVal))
  | arr (elems : List HVal)
  | strset (elems : List String)
  deriving DecidableEq

/-- The store: cells addressed by their position, plus the sets of
references that Object.freeze and Object.seal have marked in place. -/
structure Heap where
  cells : List HCell
  frozenRefs : List Ref
  sealedRefs : List Ref
  deriving DecidableEq

/-- Number of allocated cells; references below it are the live ones. -/
def Heap.size (h : Heap) : Nat :=
  h.cells.length

/-- Reads the cell at a reference. -/
def Heap.get (h : Heap) (r : Ref) : Option HCell :=
  h.cells[r]?

/-- Allocates a fresh cell and returns its reference. -/
def Heap.alloc (h : Heap) (c : HCell) : Heap × Ref :=
  ({ h with cells := h.cells ++ [c] }, h.cells.length)

/-- Overwrites the cell at a reference (a JavaScript in-place
mutation). -/
def Heap.write (h : Heap) (r : Ref) (c : HCell) : Heap :=
  { h with cells := h.cells.set r c }

/-- Marks a reference as frozen, what Object.freeze does in place. -/
def freezeRef (h : Heap) (r : Ref) : Heap :=
  { h with frozenRefs := r :: h.frozenRefs }

/-- Marks a reference as sealed, what Object.seal does in place. -/
def sealRef (h : Heap) (r : Ref) : Heap :=
  { h with sealedRefs := r :: h.sealedRefs }

/-- Whether the object behind a reference is frozen. -/
def isFrozenH (h : Heap) (r : Ref) : Prop :=
  r ∈ h.frozenRefs

/-- Whether the object behind a reference is sealed (a frozen object is
also sealed in JavaScript). -/
def isSealedH (h : Heap) (r : Ref) : Prop :=
  r ∈ h.sealedRefs ∨ r ∈ h.frozenRefs

/-- Looks up an own field in a heap object field list. -/
def lookupFieldH : List (String × HVal) → String → Option HVal
  | [], _ => none
  | f :: fs, k => if f.1 = k then some f.2 else lookupFieldH fs k

/-- Writes a field into a heap object field list with JavaScript
semantics: overwrite in place or append. -/
def setFieldH (fs : List (String × HVal)) (k : String) (v : HVal) : List (String × HVal) :=
  if fs.any (fun f => f.1 = k) then
    fs.map (fun f => if f.1 = k then (k, v) else f)
  else fs ++ [(k, v)]

/-- Writes into an array cell at a canonical index; sparse or
named-key array writes never arise through the typed path addressing
and are left out of the model. -/
def setElemH (es : List HVal) (k : String) (v : HVal) : List HVal :=
  match Cerios.decIndex? k with
  | some n =>
    if n < es.length then es.set n v
    else if n = es.length then es ++ [v]
    else es
  | none => es

/-- The fields of the object cell at a reference (builders only apply
this to their partial-instance reference, which is always an object
cell). -/
def Heap.objFields (h : Heap) (r : Ref) : List (String × HVal) :=
  match h.get r with
  | some (.obj fs) => fs
  | _ => []

/-- The contents of the string-set cell at a reference. -/
def Heap.strs (h : Heap) (r : Ref) : List String :=
  match h.get r with
  | some (.strset ss) => ss
  | _ => []

/-- JavaScript property write current[key] = v against the heap: the
cell at the reference is mutated in place. -/
def writeField (h : Heap) (r : Ref) (k : String) (v : HVal) : Heap :=
  match h.get r with
  | some (.obj fs) => h.write r (.obj (setFieldH fs k v))
  | some (.arr es) => h.write r (.arr (setElemH es k v))
  | _ => h

/-- Sequences a heap-threading function over the fields of an object. -/
def cloneFieldsWith (f : Heap → HVal → Heap × HVal) : Heap → List (String × HVal) → Heap × List (String × HVal)
  | h, [] => (h, [])
  | h, fld :: fs =>
    let (h1, v1) := f h fld.2
    let (h2, fs1) := cloneFieldsWith f h1 fs
    (h2, (fld.1, v1) :: fs1)

/-- Sequences a heap-threading function over the elements of an
array. -/
def cloneElemsWith (f : Heap → HVal → Heap × HVal) : Heap → List HVal → Heap × List HVal
  | h, [] => (h, [])
  | h, v :: vs =>
    let (h1, v1) := f h v
    let (h2, vs1) := cloneElemsWith f h1 vs
    (h2, v1 :: vs1)

/-- Transcribes the private deepClone helper against the heap:
primitives are returned as they are, objects and arrays are copied into
freshly allocated cells, recursively.  The fuel argument bounds the
recursion depth (the source recursion terminates because builder data
is acyclic; cyclic data is a documented non-goal).  When fuel runs out
on a reference — which cannot happen when the fuel exceeds the depth of
the value — a fresh empty object is allocated so that the clone result
is a fresh cell in every case. -/
def deepCloneH (fuel : Nat) : Heap → HVal → Heap × HVal :=
  Nat.rec (motive := fun _ => Heap → HVal → Heap × HVal)
    (fun h v =>
      match v with
      | .prim p => (h, .prim p)
      | .ref _ =>
        let (h1, r1) := h.alloc (.obj [])
        (h1, .ref r1))
    (fun _ ih h v =>
      match v with
      | .prim p => (h, .prim p)
      | .ref r =>
        match h.get r with
        | some (.obj fs) =>
          let (h1, fs1) := cloneFieldsWith ih h fs
          let (h2, r2) := h1.alloc (.obj fs1)
          (h2, .ref r2)
        | some (.arr es) =>
          let (h1, es1) := cloneElemsWith ih h es
          let (h2, r2) := h1.alloc (.arr es1)
          (h2, .ref r2)
        | _ =>
          let (h1, r1) := h.alloc (.obj [])
          (h1, .ref r1))
    fuel

/-- The reference inside a heap value (deepCloneH always returns a
reference when given one). -/
def refOf : HVal → Ref
  | .ref r => r
  | .prim _ => 0

/-- The builder state of the heap model: the static required template
of the concrete class, the reference to the partial instance object,
and the reference to the _requiredFields set. -/
structure HBuilder where
  requiredTemplate : List String
  actual : Ref
  req : Ref
  deriving DecidableEq

/-- Transcribes setProperty: spread the partial instance into a fresh
object with the key overwritten, and hand the new builder a fresh copy
of the required-fields set (Array.from in the call, new Set in the
constructor). -/
def setProperty (h : Heap) (b : HBuilder) (key : String) (value : HVal) : Heap × HBuilder :=
  let (h1, a) := h.alloc (.obj (setFieldH (h.objFields b.actual) key value))
  let (h2, q) := h1.alloc (.strset (h.strs b.req))
  (h2, { b with actual := a, req := q })

/-- Transcribes setProperties: spread the partial instance and then the
given properties in order into a fresh object. -/
def setProperties (h : Heap) (b : HBuilder) (props : List (String × HVal)) : Heap × HBuilder :=
  let (h1, a) := h.alloc (.obj (props.foldl (fun fs p => setFieldH fs p.1 p.2) (h.objFields b.actual)))
  let (h2, q) := h1.alloc (.strset (h.strs b.req))
  (h2, { b with actual := a, req := q })

/-- Transcribes addToArrayProperty: read the current array at the key
(null or undefined default to the empty array), allocate a fresh array
with the value appended, and bind the key to it in a fresh spread of
the partial instance. -/
def addToArrayProperty (h : Heap) (b : HBuilder) (key : String) (value : HVal) : Heap × HBuilder :=
  let currentArray : List HVal :=
    match lookupFieldH (h.objFields b.actual) key with
    | some (.ref r) =>
      match h.get r with
      | some (.arr es) => es
      | _ => []
    | _ => []
  let (h1, ar) := h.alloc (.arr (currentArray ++ [value]))
  let (h2, a) := h1.alloc (.obj (setFieldH (h.objFields b.actual) key (.ref ar)))
  let (h3, q) := h2.alloc (.strset (h.strs b.req))
  (h3, { b with actual := a, req := q })

/-- The walking loop of setNestedProperty against the heap, started on
the fresh deep clone of the partial instance: for each segment but the
last, a missing, primitive or null child is replaced in place by a
fresh empty object while an object or array child is replaced by its
deep clone, and the walk descends into the replacement; the last
segment is assigned in place. -/
def setNestedLoop (fuel : Nat) : Heap → Ref → List String → String → HVal → Heap
  | h, current, [], last, value => writeField h current last value
  | h, current, key :: rest, last, value =>
    match lookupFieldH (h.objFields current) key with
    | some (.ref r) =>
      let (h1, c) := deepCloneH fuel h (.ref r)
      let h2 := writeField h1 current key c
      setNestedLoop fuel h2 (refOf c) rest last value
    | _ =>
      let (h1, r1) := h.alloc (.obj [])
      let h2 := writeField h1 current key (.ref r1)
      setNestedLoop fuel h2 r1 rest last value

/-- Transcribes setNestedProperty: deep-clone the partial instance,
walk the dot-separated path on the clone, assign the value at the last
segment, and wrap the clone in a new builder with a fresh copy of the
required-fields set. -/
def setNestedProperty (fuel : Nat) (h : Heap) (b : HBuilder) (path : String) (value : HVal) : Heap × HBuilder :=
  let keys := Cerios.splitDot path
  let (h1, c) := deepCloneH fuel h (.ref b.actual)
  let h2 := setNestedLoop fuel h1 (refOf c) keys.dropLast (keys.getLastD ("")) value
  let (h3, q) := h2.alloc (.strset (h2.strs b.req))
  (h3, { b with actual := refOf c, req := q })

/-- The four transition operations of the plain-record family, as one
type so that claims can quantify over them. -/
inductive BOp where
  | opSet (key : String) (value : HVal)
  | opSetMany (props : List (String × HVal))
  | opSetNested (path : String) (value : HVal)
  | opAddToArray (key : String) (value : HVal)

/-- Dispatches a transition operation. -/
def applyOp (fuel : Nat) (h : Heap) (b : HBuilder) : BOp → Heap × HBuilder
  | .opSet k v => setProperty h b k v
  | .opSetMany ps => setProperties h b ps
  | .opSetNested p v => setNestedProperty fuel h b p v
  | .opAddToArray k v => addToArrayProperty h b k v

/-- Transcribes setRequiredFields: the _requiredFields member of the
receiver is overwritten in place with a fresh set built from the
argument, and the receiver itself is returned, so only the heap
changes. -/
def setRequiredFields (h : Heap) (b : HBuilder) (fields : List String) : Heap :=
  h.write b.req (.strset (Cerios.jsSetDedup fields))

/-- Transcribes getRequiredTemplate against the heap. -/
def getRequiredTemplate (h : Heap) (b : HBuilder) : List String :=
  Cerios.jsSetDedup (b.requiredTemplate ++ h.strs b.req)

/-- The in operator against the heap (own properties; none is the
TypeError on primitives, guarded in context). -/
def hKeyIn (h : Heap) : HVal → String → Option Bool
  | .ref r, k =>
    match h.get r with
    | some (.obj fs) => some (fs.any (fun f => f.1 = k))
    | some (.arr es) =>
      some ((match Cerios.decIndex? k with
             | some n => decide (n < es.length)
             | none => false) || k = "length")
    | _ => some false
  | .prim _, _ => none

/-- Property read against the heap. -/
def hGetProp (h : Heap) : HVal → String → HVal
  | .ref r, k =>
    match h.get r with
    | some (.obj fs) =>
      match lookupFieldH fs k with
      | some v => v
      | none => .prim .pundefv
    | some (.arr es) =>
      if k = "length" then .prim (.pnum es.length)
      else
        match Cerios.decIndex? k with
        | some n => es.getD n (.prim .pundefv)
        | none => .prim .pundefv
    | _ => .prim .pundefv
  | .prim _, _ => .prim .pundefv

/-- Null-or-undefined test on heap values. -/
def isNullOrUndefinedH : HVal → Bool
  | .prim .pnull => true
  | .prim .pundefv => true
  | _ => false

/-- The inner loop of validateRequiredFields against the heap. -/
def walkLoopH (h : Heap) : HVal → List String → Except String (Bool × HVal)
  | current, [] => .ok (false, current)
  | current, key :: rest =>
    if isNullOrUndefinedH current then .ok (true, current)
    else
      match hKeyIn h current key with
      | none => .error ("TypeError: cannot use the in operator on a primitive")
      | some false => .ok (true, current)
      | some true => walkLoopH h (hGetProp h current key) rest

/-- One required path against the heap. -/
def validateOnePathH (h : Heap) (actual : HVal) (missing : List String) (path : String) : Except String (List String) :=
  match walkLoopH h actual (Cerios.splitDot path) with
  | .error e => .error e
  | .ok (broke, current) =>
    let m1 := if broke then missing ++ [path] else missing
    if isNullOrUndefinedH current && !(m1.contains path) then .ok (m1 ++ [path])
    else .ok m1

/-- All required paths against the heap, in template order. -/
def validateAllH (h : Heap) (actual : HVal) : List String → List String → Except String (List String)
  | [], missing => .ok missing
  | path :: rest, missing =>
    match validateOnePathH h actual missing path with
    | .error e => .error e
    | .ok m1 => validateAllH h actual rest m1

/-- Transcribes validateRequiredFields against the heap. -/
def validateRequiredFieldsH (h : Heap) (b : HBuilder) : Except String (List String) :=
  validateAllH h (.ref b.actual) (getRequiredTemplate h b) []

/-- Folds a heap-threading lock function over a list of values. -/
def lockListWith (f : Heap → HVal → Heap) : Heap → List HVal → Heap
  | h, [] => h
  | h, v :: vs => lockListWith f (f h v) vs

/-- Transcribes the deepFreeze helper: freeze every object or array
reachable from the value (recursing through own property values before
freezing the cell itself), marking each cell in place.  Fuel bounds the
recursion depth as for deepCloneH. -/
def deepFreezeH (fuel : Nat) : Heap → HVal → Heap :=
  Nat.rec (motive := fun _ => Heap → HVal → Heap)
    (fun h _ => h)
    (fun _ ih h v =>
      match v with
      | .prim _ => h
      | .ref r =>
        match h.get r with
        | some (.obj fs) => freezeRef (lockListWith ih h (fs.map (fun f => f.2))) r
        | some (.arr es) => freezeRef (lockListWith ih h es) r
        | _ => freezeRef h r)
    fuel

/-- Transcribes the deepSeal helper, the sealing analogue of
deepFreezeH. -/
def deepSealH (fuel : Nat) : Heap → HVal → Heap :=
  Nat.rec (motive := fun _ => Heap → HVal → Heap)
    (fun h _ => h)
    (fun _ ih h v =>
      match v with
      | .prim _ => h
      | .ref r =>
        match h.get r with
        | some (.obj fs) => sealRef (lockListWith ih h (fs.map (fun f => f.2))) r
        | some (.arr es) => sealRef (lockListWith ih h es) r
        | _ => sealRef h r)
    fuel

/-- Transcribes buildUnsafe for the plain family: the accumulated
partial instance itself is returned, with no checks and no copy. -/
def buildUnsafeH (_h : Heap) (b : HBuilder) : Ref :=
  b.actual

/-- Transcribes buildPartial for the plain family: the partial instance
itself is returned. -/
def buildPartialH (_h : Heap) (b : HBuilder) : Ref :=
  b.actual

/-- Transcribes buildFrozen: validate, raise on missing fields, and on
success freeze the partial instance in place and return it. -/
def buildFrozenH (h : Heap) (b : HBuilder) : Heap × Except String Ref :=
  match validateRequiredFieldsH h b with
  | .error e => (h, .error e)
  | .ok missing =>
    if missing.length > 0 then (h, .error (Cerios.CeriosBuilder.missingFieldsMessage missing))
    else (freezeRef h b.actual, .ok b.actual)

/-- Transcribes buildDeepFrozen: validate, raise on missing fields, and
on success deep-freeze the partial instance in place and return it. -/
def buildDeepFrozenH (fuel : Nat) (h : Heap) (b : HBuilder) : Heap × Except String Ref :=
  match validateRequiredFieldsH h b with
  | .error e => (h, .error e)
  | .ok missing =>
    if missing.length > 0 then (h, .error (Cerios.CeriosBuilder.missingFieldsMessage missing))
    else (deepFreezeH fuel h (.ref b.actual), .ok b.actual)

/-- Transcribes buildSealed. -/
def buildSealedH (h : Heap) (b : HBuilder) : Heap × Except String Ref :=
  match validateRequiredFieldsH h b with
  | .error e => (h, .error e)
  | .ok missing =>
    if missing.length > 0 then (h, .error (Cerios.CeriosBuilder.missingFieldsMessage missing))
    else (sealRef h b.actual, .ok b.actual)

/-- Transcribes buildDeepSealed. -/
def buildDeepSealedH (fuel : Nat) (h : Heap) (b : HBuilder) : Heap × Except String Ref :=
  match validateRequiredFieldsH h b with
  | .error e => (h, .error e)
  | .ok missing =>
    if missing.length > 0 then (h, .error (Cerios.CeriosBuilder.missingFieldsMessage missing))
    else (deepSealH fuel h (.ref b.actual), .ok b.actual)

/-- The four freeze/seal finalize variants as one type. -/
inductive LockVariant where
  | frozenV
  | deepFrozenV
  | sealedV
  | deepSealedV
  deriving DecidableEq

/-- Dispatches a freeze/seal finalize variant. -/
def runLockBuild (v : LockVariant) (fuel : Nat) (h : Heap) (b : HBuilder) : Heap × Except String Ref :=
  match v with
  | .frozenV => buildFrozenH h b
  | .deepFrozenV => buildDeepFrozenH fuel h b
  | .sealedV => buildSealedH h b
  | .deepSealedV => buildDeepSealedH fuel h b

/-- Modelled from the spec: the from-existing-value factory (exercised
by the repository tests, implementation not under src/) deep-copies
the given finished value into the partial instance of the new builder,
with
an empty dynamic required set. -/
def fromBuilder (fuel : Nat) (h : Heap) (v : HVal) (tmpl : List String) : Heap × HBuilder :=
  let (h1, c) := deepCloneH fuel h v
  let (h2, q) := h1.alloc (.strset [])
  (h2, { requiredTemplate := tmpl, actual := refOf c, req := q })

/-- Sequences a read over the elements of an array cell. -/
def readElemsWith (f : HVal → Option Cerios.Jx) : List HVal → Option (List Cerios.Jx)
  | [] => some []
  | v :: vs =>
    match f v, readElemsWith f vs with
    | some t, some ts => some (t :: ts)
    | _, _ => none

/-- Sequences a read over the fields of an object cell. -/
def readFieldsWith (f : HVal → Option Cerios.Jx) : List (String × HVal) → Option (List (String × Cerios.Jx))
  | [] => some []
  | fld :: fs =>
    match f fld.2, readFieldsWith f fs with
    | some t, some ts => some ((fld.1, t) :: ts)
    | _, _ => none

/-- Reads the pure value behind a heap value, up to the given depth:
the bridge between the two models, and the notion of deep structural
equality.  Fails on dangling references or when the depth bound is
exceeded. -/
def readH (fuel : Nat) (h : Heap) : HVal → Option Cerios.Jx :=
  Nat.rec (motive := fun _ => HVal → Option Cerios.Jx)
    (fun v =>
      match v with
      | .prim p => some (.prim p)
      | .ref _ => none)
    (fun _ ih v =>
      match v with
      | .prim p => some (.prim p)
      | .ref r =>
        match h.get r with
        | some (.obj fs) => (readFieldsWith ih fs).map Cerios.Jx.obj
        | some (.arr es) => (readElemsWith ih es).map Cerios.Jx.arr
        | _ => none)
    fuel

/-- Collects references over the elements of an array cell. -/
def refsElemsWith (f : HVal → List Ref) : List HVal → List Ref
  | [] => []
  | v :: vs => f v ++ refsElemsWith f vs

/-- Collects references over the fields of an object cell. -/
def refsFieldsWith (f : HVal → List Ref) : List (String × HVal) → List Ref
  | [] => []
  | fld :: fs => f fld.2 ++ refsFieldsWith f fs

/-- Heap extension: h2 has at least the cells of h1, unchanged at every
reference that was live in h1.  Every transition operation only extends
the heap, which is the formal content of immutability of existing
builder values. -/
def HeapExtends (h2 h1 : Heap) : Prop :=
  h1.size ≤ h2.size ∧ ∀ r, r < h1.size → h2.get r = h1.get r

/-- The working invariant of the frame proofs: going from h1 to h2 the
heap only grew, every cell below the bound n is untouched, and the
freeze and seal marks are untouched. -/
def PreservedBelow (n : Nat) (h1 h2 : Heap) : Prop :=
  h1.size ≤ h2.size ∧ (∀ r, r < n → h2.get r = h1.get r) ∧
  h2.frozenRefs = h1.frozenRefs ∧ h2.sealedRefs = h1.sealedRefs

/-- The references reachable from a heap value within the given depth:
the notion of shared object identity between two values. -/
def hRefs (fuel : Nat) (h : Heap) : HVal → List Ref :=
  Nat.rec (motive := fun _ => HVal → List Ref)
    (fun v =>
      match v with
      | .prim _ => []
      | .ref r => [r])
    (fun _ ih v =>
      match v with
      | .prim _ => []
      | .ref r =>
        match h.get r with
        | some (.obj fs) => r :: refsFieldsWith ih fs
        | some (.arr es) => r :: refsElemsWith ih es
        | _ => [r])
    fuel

/-- A small concrete heap used by witnesses: an empty object at 0 and
a required-fields set cell at 1. -/
def exHeap : Heap :=
  { cells := [.obj [], .strset ["a", "a", "b"]], frozenRefs := [], sealedRefs := [] }

/-- A small concrete builder over exHeap. -/
def exBuilder : HBuilder :=
  { requiredTemplate := ["t"], actual := 0, req := 1 }

/-- A concrete heap whose builder passes validation (no required
fields). -/
def exHeapOk : Heap :=
  { cells := [.obj [("name", .prim (.pstr ("n")))], .strset []],
    frozenRefs := [], sealedRefs := [] }

/-- The builder over exHeapOk. -/
def exBuilderOk : HBuilder :=
  { requiredTemplate := [], actual := 0, req := 1 }

/-- A concrete heap holding an object with a nested object. -/
def exHeapNested : Heap :=
  { cells := [.obj [("address", .ref 1)], .obj [("city", .prim (.pstr ("NY")))], .strset []],
    frozenRefs := [], sealedRefs := [] }

/-- The builder over exHeapNested. -/
def exBuilderNested : HBuilder :=
  { requiredTemplate := [], actual := 0, req := 2 }

end CeriosH

/-
Theorems.  Helper lemmas come first, then for each claim its theorem
(and witness or counterexample where applicable).
-/

namespace Cerios

theorem jsSetDedup_go_nodup (xs : List String) :
    ∀ acc : List String, acc.Nodup →
      (xs.foldl (fun acc x => if x ∈ acc then acc else acc ++ [x]) acc).Nodup := by
  induction xs with
  | nil => intro acc h; simpa using h
  | cons x xs ih =>
    intro acc h
    simp only [List.foldl_cons]
    by_cases hx : x ∈ acc
    · simpa [hx] using ih acc h
    · refine ih _ ?_
      simp [List.nodup_append, h, hx]

theorem jsSetDedup_go_mem (xs : List String) :
    ∀ (acc : List String) (a : String),
      (a ∈ xs.foldl (fun acc x => if x ∈ acc then acc else acc ++ [x]) acc ↔ a ∈ acc ∨ a ∈ xs) := by
  induction xs with
  | nil => intro acc a; simp
  | cons x xs ih =>
    intro acc a
    simp only [List.foldl_cons]
    by_cases hx : x ∈ acc
    · rw [if_pos hx, ih]
      constructor
      · rintro (h | h)
        · exact Or.inl h
        · exact Or.inr (by simp [h])
      · rintro (h | h)
        · exact Or.inl h
        · rcases List.mem_cons.mp h with h | h
          · exact Or.inl (h ▸ hx)
          · exact Or.inr h
    · rw [if_neg hx, ih]
      simp only [List.mem_append, List.mem_singleton, List.mem_cons]
      tauto

theorem jsSetDedup_nodup (xs : List String) : (jsSetDedup xs).Nodup :=
  jsSetDedup_go_nodup xs [] List.nodup_nil

theorem jsSetDedup_mem (xs : List String) (a : String) : a ∈ jsSetDedup xs ↔ a ∈ xs := by
  unfold jsSetDedup
  rw [jsSetDedup_go_mem]
  simp

theorem keyIn_eq_specOwnKey (v : Jx) (k : String) (c : Bool) (h : keyIn v k = some c) :
    specOwnKey v k = c := by
  cases v with
  | prim p => simp [keyIn] at h
  | obj fs => simpa [keyIn, specOwnKey] using h
  | arr es => simpa [keyIn, specOwnKey] using h

theorem walkLoop_spec : ∀ (keys : List String) (current : Jx) (broke : Bool) (fin : Jx),
    CeriosBuilder.walkLoop current keys = .ok (broke, fin) →
    specMissingWalk current keys = (broke || isNullOrUndefined fin) := by
  intro keys
  induction keys with
  | nil =>
    intro current broke fin h
    simp only [CeriosBuilder.walkLoop, Except.ok.injEq, Prod.mk.injEq] at h
    obtain ⟨h1, h2⟩ := h
    subst h1; subst h2
    simp [specMissingWalk]
  | cons key rest ih =>
    intro current broke fin h
    simp only [CeriosBuilder.walkLoop] at h
    by_cases hn : isNullOrUndefined current
    · rw [if_pos hn] at h
      simp only [Except.ok.injEq, Prod.mk.injEq] at h
      obtain ⟨h1, h2⟩ := h
      subst h1; subst h2
      simp [specMissingWalk, hn]
    · rw [if_neg hn] at h
      cases hk : keyIn current key with
      | none => rw [hk] at h; simp at h
      | some c =>
        rw [hk] at h
        have hspec := keyIn_eq_specOwnKey current key c hk
        cases c with
        | false =>
          simp only [Except.ok.injEq, Prod.mk.injEq] at h
          obtain ⟨h1, h2⟩ := h
          subst h1; subst h2
          simp [specMissingWalk, hn, hspec]
        | true =>
          simp only at h
          have := ih (getProp current key) broke fin h
          simp [specMissingWalk, hn, hspec, this]

theorem validateOnePath_spec (actual : Jx) (missing : List String) (path : String) (m1 : List String)
    (hnm : path ∉ missing)
    (h : CeriosBuilder.validateOnePath actual missing path = .ok m1) :
    m1 = missing ++ (if specMissingAddress actual path then [path] else []) := by
  unfold CeriosBuilder.validateOnePath at h
  cases hw : CeriosBuilder.walkLoop actual (splitDot path) with
  | error e => rw [hw] at h; simp at h
  | ok p =>
    obtain ⟨broke, fin⟩ := p
    have hs := walkLoop_spec _ _ _ _ hw
    rw [hw] at h
    unfold specMissingAddress
    rw [hs]
    have hc : missing.contains path = false :=
      Bool.eq_false_iff.mpr (fun hcc => hnm (List.elem_iff.mp hcc))
    cases broke with
    | false =>
      by_cases hf : isNullOrUndefined fin
      · simp [hf, hc, hnm] at h
        subst h
        simp [hf]
      · simp [Bool.eq_false_iff.mpr hf] at h
        subst h
        simp [Bool.eq_false_iff.mpr hf]
    | true =>
      simp at h
      subst h
      simp

theorem validateAll_spec (actual : Jx) : ∀ (paths missing res : List String),
    paths.Nodup → (∀ p ∈ paths, p ∉ missing) →
    CeriosBuilder.validateAll actual paths missing = .ok res →
    res = missing ++ paths.filter (fun p => specMissingAddress actual p) := by
  intro paths
  induction paths with
  | nil =>
    intro missing res _ _ h
    simp only [CeriosBuilder.validateAll, Except.ok.injEq] at h
    subst h
    simp
  | cons p rest ih =>
    intro missing res hnd hnm h
    simp only [CeriosBuilder.validateAll] at h
    cases hv : CeriosBuilder.validateOnePath actual missing p with
    | error e => rw [hv] at h; simp at h
    | ok m1 =>
      rw [hv] at h
      simp only at h
      have hm1 := validateOnePath_spec actual missing p m1 (hnm p (by simp)) hv
      have hrest : ∀ q ∈ rest, q ∉ m1 := by
        intro q hq
        have hqp : q ≠ p := by
          intro hqq
          subst hqq
          exact (List.nodup_cons.mp hnd).1 hq
        have hqm : q ∉ missing := hnm q (by simp [hq])
        subst hm1
        by_cases hs : specMissingAddress actual p <;> simp [hs, hqm, hqp]
      have hres := ih m1 res (List.nodup_cons.mp hnd).2 hrest h
      subst hm1
      rw [hres, List.filter_cons]
      by_cases hs : specMissingAddress actual p <;> simp [hs]

/-- C1: for every builder value, the runtime validator succeeds exactly
on the inputs where no JavaScript TypeError interferes (which the typed
interface guarantees), and then returns precisely the addresses of the
effective manifest whose walk hits a null/undefined or absent segment
or a null/undefined terminal value — each exactly once, in
manifest-encounter order, and never an address whose full path is
present with a defined terminal value. -/
theorem c1_missing_addresses_exact (b : CeriosBuilder)
    (hok : ∃ m, CeriosBuilder.validateRequiredFields b = .ok m) :
    CeriosBuilder.validateRequiredFields b =
      .ok ((CeriosBuilder.getRequiredTemplate b).filter (fun p => specMissingAddress b.actual p)) ∧
    ((CeriosBuilder.getRequiredTemplate b).filter (fun p => specMissingAddress b.actual p)).Nodup := by
  obtain ⟨m, hm⟩ := hok
  have hnd : (CeriosBuilder.getRequiredTemplate b).Nodup := jsSetDedup_nodup _
  have hres := validateAll_spec b.actual (CeriosBuilder.getRequiredTemplate b) [] m hnd
    (by intro p _ hc; simp at hc) hm
  constructor
  · rw [hm, hres]
    simp
  · exact hnd.filter _

/-- Witness for C1: spec scenario 2, a builder with manifest id, name,
email and only id and name set reports exactly the address email. -/
theorem c1_missing_addresses_exact_witness :
    CeriosBuilder.validateRequiredFields
        { requiredTemplate := ["id", "name", "email"], requiredFields := [], validators := [],
          actual := .obj [("id", .prim (.pstr ("1"))), ("name", .prim (.pstr ("n")))] } =
      .ok ((CeriosBuilder.getRequiredTemplate
        { requiredTemplate := ["id", "name", "email"], requiredFields := [], validators := [],
          actual := .obj [("id", .prim (.pstr ("1"))), ("name", .prim (.pstr ("n")))] }).filter
          (fun p => specMissingAddress (.obj [("id", .prim (.pstr ("1"))), ("name", .prim (.pstr ("n")))]) p)) ∧
    ((CeriosBuilder.getRequiredTemplate
        { requiredTemplate := ["id", "name", "email"], requiredFields := [], validators := [],
          actual := .obj [("id", .prim (.pstr ("1"))), ("name", .prim (.pstr ("n")))] }).filter
          (fun p => specMissingAddress (.obj [("id", .prim (.pstr ("1"))), ("name", .prim (.pstr ("n")))]) p)).Nodup :=
  c1_missing_addresses_exact _ ⟨["email"], rfl⟩

theorem runBuild_eq_checked (v : BuildVariant) (b : CeriosBuilder) :
    runBuild v b =
      (match CeriosBuilder.validateRequiredFields b with
       | .error e => .error e
       | .ok missing =>
         if missing.length > 0 then .error (CeriosBuilder.missingFieldsMessage missing)
         else .ok b.actual) := by
  cases v <;> rfl

/-- C3: every finalize variant with the runtime required-field check
raises exactly when the missing-address list is non-empty, with the
message built as the fixed prefix, the comma-space joined addresses in
validator order and the fixed suffix; no value is produced on failure,
and (third conjunct, heap model) a failing freeze/seal variant returns
the heap unchanged, so the builder can be transitioned further and
re-finalized. -/
theorem c3_checked_build_error_contract (v : BuildVariant) (b : CeriosBuilder) (m : List String)
    (hm : CeriosBuilder.validateRequiredFields b = .ok m) :
    (m = [] → runBuild v b = .ok b.actual) ∧
    (m ≠ [] →
      runBuild v b = .error ("Missing required fields: " ++ String.intercalate (", ") m ++
        ". Please set these fields before calling build.")) ∧
    (∀ lockv fuel hh hb mm, CeriosH.validateRequiredFieldsH hh hb = .ok mm → mm ≠ [] →
      CeriosH.runLockBuild lockv fuel hh hb =
        (hh, .error ("Missing required fields: " ++ String.intercalate (", ") mm ++
          ". Please set these fields before calling build."))) := by
  refine ⟨?_, ?_, ?_⟩
  · intro hnil
    rw [runBuild_eq_checked, hm]
    subst hnil
    simp
  · intro hne
    rw [runBuild_eq_checked, hm]
    have hl : m.length > 0 := List.length_pos.mpr hne
    simp [hl, CeriosBuilder.missingFieldsMessage]
  · intro lockv fuel hh hb mm hvh hne
    have hl : mm.length > 0 := List.length_pos.mpr hne
    cases lockv <;>
      simp [CeriosH.runLockBuild, CeriosH.buildFrozenH, CeriosH.buildDeepFrozenH,
        CeriosH.buildSealedH, CeriosH.buildDeepSealedH, hvh, hl,
        CeriosBuilder.missingFieldsMessage]

/-- Witness for C3: spec scenario 2, with email missing, buildSafe
raises the exact documented message. -/
theorem c3_checked_build_error_contract_witness :
    (["email"] = ([] : List String) →
      runBuild .safeV
        { requiredTemplate := ["id", "name", "email"], requiredFields := [], validators := [],
          actual := .obj [("id", .prim (.pstr ("1"))), ("name", .prim (.pstr ("n")))] } =
        .ok (.obj [("id", .prim (.pstr ("1"))), ("name", .prim (.pstr ("n")))])) ∧
    (["email"] ≠ ([] : List String) →
      runBuild .safeV
        { requiredTemplate := ["id", "name", "email"], requiredFields := [], validators := [],
          actual := .obj [("id", .prim (.pstr ("1"))), ("name", .prim (.pstr ("n")))] } =
        .error ("Missing required fields: " ++ String.intercalate (", ") ["email"] ++
          ". Please set these fields before calling build.")) ∧
    (∀ lockv fuel hh hb mm, CeriosH.validateRequiredFieldsH hh hb = .ok mm → mm ≠ [] →
      CeriosH.runLockBuild lockv fuel hh hb =
        (hh, .error ("Missing required fields: " ++ String.intercalate (", ") mm ++
          ". Please set these fields before calling build."))) :=
  c3_checked_build_error_contract .safeV _ ["email"] rfl

mutual
theorem deepClone_id : (x : Jx) → CeriosBuilder.deepClone x = x
  | .prim _ => by simp [CeriosBuilder.deepClone]
  | .arr es => by
    simp [CeriosBuilder.deepClone]
    exact deepCloneElems_id es
  | .obj fs => by
    simp [CeriosBuilder.deepClone]
    exact deepCloneFields_id fs

theorem deepCloneElems_id : (es : List Jx) → CeriosBuilder.deepCloneElems es = es
  | [] => by simp [CeriosBuilder.deepCloneElems]
  | v :: vs => by
    simp [CeriosBuilder.deepCloneElems]
    exact ⟨deepClone_id v, deepCloneElems_id vs⟩

theorem deepCloneFields_id : (fs : List (String × Jx)) → CeriosBuilder.deepCloneFields fs = fs
  | [] => by simp [CeriosBuilder.deepCloneFields]
  | f :: fs => by
    simp [CeriosBuilder.deepCloneFields]
    exact ⟨by rw [deepClone_id f.2], deepCloneFields_id fs⟩
end

theorem setNestedGo_eq_spec : ∀ (keys : List String) (x : Jx) (v : Jx),
    CeriosBuilder.setNestedGo x keys v = specSetNested x keys v := by
  intro keys
  induction keys with
  | nil => intro x v; rfl
  | cons key rest ih =>
    intro x v
    cases rest with
    | nil => rfl
    | cons k2 ks =>
      simp only [CeriosBuilder.setNestedGo, specSetNested]
      cases hg : getProp x key with
      | prim p =>
        dsimp only
        rw [ih]
      | obj fs =>
        dsimp only
        rw [deepClone_id, ih]
      | arr es =>
        dsimp only
        rw [deepClone_id, ih]

theorem lookupField_map_set (k : String) (v : Jx) : ∀ (fs : List (String × Jx)) (k' : String),
    lookupField (fs.map (fun f => if f.1 = k then (k, v) else f)) k' =
      (if k' = k then (lookupField fs k).map (fun _ => v) else lookupField fs k') := by
  intro fs
  induction fs with
  | nil => intro k'; simp [lookupField]
  | cons f fs ih =>
    intro k'
    by_cases hf : f.1 = k
    · by_cases hk' : k' = k
      · subst hk'
        simp [lookupField, hf, ih]
      · simp [lookupField, hf, Ne.symm hk', hk', ih]
    · by_cases hfk' : f.1 = k'
      · have hk' : ¬ (k' = k) := fun hh => hf (hfk'.trans hh)
        simp [lookupField, hf, hfk', hk']
      · simp [lookupField, hf, hfk', ih]

theorem lookupField_append (k' : String) : ∀ (fs gs : List (String × Jx)),
    lookupField (fs ++ gs) k' =
      (match lookupField fs k' with
       | some w => some w
       | none => lookupField gs k') := by
  intro fs gs
  induction fs with
  | nil => simp [lookupField]
  | cons f fs ih =>
    by_cases hf : f.1 = k'
    · simp [lookupField, hf]
    · simp [lookupField, hf, ih]

theorem lookupField_eq_none_of_not_any (k : String) :
    ∀ fs : List (String × Jx), fs.any (fun f => f.1 = k) = false → lookupField fs k = none := by
  intro fs
  induction fs with
  | nil => intro _; rfl
  | cons f fs ih =>
    intro h
    simp only [List.any_cons, Bool.or_eq_false_iff] at h
    have hf : ¬ (f.1 = k) := by simpa using h.1
    simp [lookupField, hf, ih h.2]

theorem lookupField_isSome_of_any (k : String) :
    ∀ fs : List (String × Jx), fs.any (fun f => f.1 = k) = true → (lookupField fs k).isSome := by
  intro fs
  induction fs with
  | nil => intro h; simp at h
  | cons f fs ih =>
    intro h
    by_cases hf : f.1 = k
    · simp [lookupField, hf]
    · have h2 : fs.any (fun f => f.1 = k) = true := by
        cases ho : fs.any (fun f => f.1 = k)
        · exfalso
          rw [List.any_cons, ho] at h
          simp [hf] at h
        · rfl
      simp [lookupField, hf, ih h2]

theorem lookupField_setField (k : String) (v : Jx) (fs : List (String × Jx)) :
    lookupField (setField fs k v) k = some v := by
  unfold setField
  by_cases ha : fs.any (fun f => f.1 = k)
  · rw [if_pos ha, lookupField_map_set, if_pos rfl]
    obtain ⟨w, hw⟩ := Option.isSome_iff_exists.mp (lookupField_isSome_of_any k fs ha)
    rw [hw]
    rfl
  · rw [if_neg ha, lookupField_append,
      lookupField_eq_none_of_not_any k fs (Bool.eq_false_iff.mpr ha)]
    simp [lookupField]

theorem lookupField_setField_ne (k k' : String) (v : Jx) (hk : k' ≠ k) (fs : List (String × Jx)) :
    lookupField (setField fs k v) k' = lookupField fs k' := by
  unfold setField
  by_cases ha : fs.any (fun f => f.1 = k)
  · rw [if_pos ha, lookupField_map_set, if_neg hk]
  · rw [if_neg ha, lookupField_append]
    cases hl : lookupField fs k' with
    | some w => rfl
    | none => simp [lookupField, Ne.symm hk]

theorem getProp_setProp_obj_self (fs : List (String × Jx)) (k : String) (v : Jx) :
    getProp (setProp (.obj fs) k v) k = v := by
  simp [setProp, getProp, lookupField_setField]

theorem getProp_setProp_obj_ne (fs : List (String × Jx)) (k k' : String) (v : Jx) (hk : k' ≠ k) :
    getProp (setProp (.obj fs) k v) k' = getProp (.obj fs) k' := by
  simp [setProp, getProp, lookupField_setField_ne k k' v hk]

theorem pathObjsOnly_isObj (x : Jx) (l : List String) (h : pathObjsOnly x l = true) :
    ∃ fs, x = .obj fs := by
  cases x with
  | obj fs => exact ⟨fs, rfl⟩
  | prim p => cases l <;> simp [pathObjsOnly] at h
  | arr es => cases l <;> simp [pathObjsOnly] at h

theorem specSetNested_cons (x : Jx) (key : String) (ks : List String) (hne : ks ≠ []) (v : Jx) :
    specSetNested x (key :: ks) v =
      (match getProp x key with
       | .prim _ => setProp x key (specSetNested (.obj []) ks v)
       | .obj fs => setProp x key (specSetNested (.obj fs) ks v)
       | .arr es => setProp x key (specSetNested (.arr es) ks v)) := by
  cases ks with
  | nil => exact absurd rfl hne
  | cons k2 ks' => rfl

theorem getPath_specSetNested : ∀ (mid : List String) (x : Jx) (last : String) (v : Jx),
    pathObjsOnly x mid = true →
    getPath (specSetNested x (mid ++ [last]) v) (mid ++ [last]) = v := by
  intro mid
  induction mid with
  | nil =>
    intro x last v hp
    obtain ⟨fs, rfl⟩ := pathObjsOnly_isObj x [] hp
    simp only [List.nil_append, specSetNested, getPath]
    rw [getProp_setProp_obj_self]
  | cons key rest ih =>
    intro x last v hp
    obtain ⟨fs, rfl⟩ := pathObjsOnly_isObj _ _ hp
    rw [List.cons_append, specSetNested_cons _ _ _ (by simp) v]
    simp only [pathObjsOnly] at hp
    cases hg : getProp (.obj fs) key with
    | prim p =>
      rw [hg] at hp
      simp only [getPath]
      rw [getProp_setProp_obj_self]
      exact ih _ last v hp
    | obj gs =>
      rw [hg] at hp
      simp only [getPath]
      rw [getProp_setProp_obj_self]
      exact ih _ last v hp
    | arr es =>
      rw [hg] at hp
      simp at hp

theorem getProp_specSetNested_ne (fs : List (String × Jx)) (key : String) (rest : List String)
    (k' : String) (hk : k' ≠ key) (v : Jx) :
    getProp (specSetNested (.obj fs) (key :: rest) v) k' = getProp (.obj fs) k' := by
  cases rest with
  | nil =>
    simp only [specSetNested]
    exact getProp_setProp_obj_ne fs key k' v hk
  | cons k2 ks' =>
    rw [specSetNested_cons _ _ _ (by simp) v]
    cases hg : getProp (.obj fs) key <;> exact getProp_setProp_obj_ne fs key k' _ hk

theorem splitDotAux_ne_nil : ∀ (cs acc : List Char), splitDotAux cs acc ≠ [] := by
  intro cs
  induction cs with
  | nil => intro acc; simp [splitDotAux]
  | cons c cs ih =>
    intro acc
    by_cases hc : c = '.'
    · simp only [splitDotAux, if_pos hc]
      simp
    · simp only [splitDotAux, if_neg hc]
      exact ih _

theorem splitDot_ne_nil (s : String) : splitDot s ≠ [] :=
  splitDotAux_ne_nil s.data []

/-- C6: setNestedProperty returns a builder whose partial instance is
exactly the specified nested update of the old one (deep copy with
missing or non-object intermediate segments replaced by fresh empty
objects and the final segment bound to the value); under the typed
addressing discipline (the walked nodes are plain objects) the value is
readable back at the full path, every other root field is untouched,
and the auxiliary required-field state is carried over unchanged. -/
theorem c6_set_nested_property (b : CeriosBuilder) (path : String) (value : Jx)
    (hp : pathObjsOnly b.actual ((splitDot path).dropLast) = true) :
    (CeriosBuilder.setNestedProperty b path value).actual = specSetNested b.actual (splitDot path) value ∧
    (CeriosBuilder.setNestedProperty b path value).requiredFields = b.requiredFields ∧
    (CeriosBuilder.setNestedProperty b path value).requiredTemplate = b.requiredTemplate ∧
    (CeriosBuilder.setNestedProperty b path value).validators = b.validators ∧
    getPath (CeriosBuilder.setNestedProperty b path value).actual (splitDot path) = value ∧
    (∀ k, k ≠ (splitDot path).headD ("") →
      getProp (CeriosBuilder.setNestedProperty b path value).actual k = getProp b.actual k) := by
  have hact : (CeriosBuilder.setNestedProperty b path value).actual =
      specSetNested b.actual (splitDot path) value := by
    show CeriosBuilder.setNestedGo (CeriosBuilder.deepClone b.actual) (splitDot path) value = _
    rw [deepClone_id, setNestedGo_eq_spec]
  have hsplit : (splitDot path).dropLast ++ [(splitDot path).getLast (splitDot_ne_nil path)] =
      splitDot path := List.dropLast_append_getLast (splitDot_ne_nil path)
  refine ⟨hact, rfl, rfl, rfl, ?_, ?_⟩
  · rw [hact, ← hsplit]
    exact getPath_specSetNested _ _ _ _ hp
  · intro k hk
    rw [hact]
    obtain ⟨fs, hfs⟩ := pathObjsOnly_isObj _ _ hp
    cases hsp : splitDot path with
    | nil => exact absurd hsp (splitDot_ne_nil path)
    | cons key rest =>
      rw [hfs]
      refine getProp_specSetNested_ne fs key rest k ?_ value
      rw [hsp] at hk
      simpa using hk

/-- Witness for C6: spec scenario 3, setting Order.Details.CustomerId
on a builder whose Order object has one other field. -/
theorem c6_set_nested_property_witness :
    (CeriosBuilder.setNestedProperty
        { requiredTemplate := [], requiredFields := ["r"], validators := [],
          actual := .obj [("Order", .obj [("Other", .prim (.pbool true))])] }
        ("Order.Details.CustomerId") (.prim (.pstr ("c")))).actual =
      specSetNested (.obj [("Order", .obj [("Other", .prim (.pbool true))])])
        (splitDot ("Order.Details.CustomerId")) (.prim (.pstr ("c"))) ∧
    (CeriosBuilder.setNestedProperty
        { requiredTemplate := [], requiredFields := ["r"], validators := [],
          actual := .obj [("Order", .obj [("Other", .prim (.pbool true))])] }
        ("Order.Details.CustomerId") (.prim (.pstr ("c")))).requiredFields = ["r"] ∧
    (CeriosBuilder.setNestedProperty
        { requiredTemplate := [], requiredFields := ["r"], validators := [],
          actual := .obj [("Order", .obj [("Other", .prim (.pbool true))])] }
        ("Order.Details.CustomerId") (.prim (.pstr ("c")))).requiredTemplate = [] ∧
    (CeriosBuilder.setNestedProperty
        { requiredTemplate := [], requiredFields := ["r"], validators := [],
          actual := .obj [("Order", .obj [("Other", .prim (.pbool true))])] }
        ("Order.Details.CustomerId") (.prim (.pstr ("c")))).validators = [] ∧
    getPath (CeriosBuilder.setNestedProperty
        { requiredTemplate := [], requiredFields := ["r"], validators := [],
          actual := .obj [("Order", .obj [("Other", .prim (.pbool true))])] }
        ("Order.Details.CustomerId") (.prim (.pstr ("c")))).actual
      (splitDot ("Order.Details.CustomerId")) = .prim (.pstr ("c")) ∧
    (∀ k, k ≠ (splitDot ("Order.Details.CustomerId")).headD ("") →
      getProp (CeriosBuilder.setNestedProperty
          { requiredTemplate := [], requiredFields := ["r"], validators := [],
            actual := .obj [("Order", .obj [("Other", .prim (.pbool true))])] }
          ("Order.Details.CustomerId") (.prim (.pstr ("c")))).actual k =
        getProp (.obj [("Order", .obj [("Other", .prim (.pbool true))])]) k) :=
  c6_set_nested_property _ ("Order.Details.CustomerId") (.prim (.pstr ("c"))) rfl

/-- C7: with the required-field pass clean, the checked finalize runs
every registered validator in registration order on the partial
instance; it succeeds exactly when all of them pass, and otherwise
raises the aggregate of every failure (false rendered as the generic
message, a string rendered as itself), a lone boolean-false failure
rendering as the bare generic message and any other failure set
rendering as the prefix followed by the messages joined by the fixed
separator. -/
theorem c7_validator_aggregation (b : CeriosBuilder)
    (hreq : CeriosBuilder.validateRequiredFields b = .ok []) :
    (CeriosBuilder.buildWithValidators b = .ok b.actual ↔
      ∀ r ∈ b.validators.map (fun f => f b.actual), r = ValidatorResult.vtrue) ∧
    ((b.validators.map (fun f => f b.actual)).any
        (fun r => r ≠ ValidatorResult.vtrue) = true →
      CeriosBuilder.buildWithValidators b =
        .error (if (b.validators.map (fun f => f b.actual)).filter
                  (fun r => r ≠ ValidatorResult.vtrue) = [ValidatorResult.vfalse] then
            "Validation failed"
          else ("Validation failed: ") ++ String.intercalate ("; ")
            ((b.validators.map (fun f => f b.actual)).filterMap CeriosBuilder.failureMessage))) := by
  unfold CeriosBuilder.buildWithValidators
  rw [hreq]
  simp only [List.length_nil, gt_iff_lt, Nat.lt_irrefl, if_false]
  constructor
  · constructor
    · intro hok r hr
      by_contra hne
      have hany : (b.validators.map (fun f => f b.actual)).any
          (fun r => r ≠ ValidatorResult.vtrue) = true :=
        List.any_eq_true.mpr ⟨r, hr, by simpa using hne⟩
      rw [if_pos hany] at hok
      exact Except.noConfusion hok
    · intro hall
      have hany : (b.validators.map (fun f => f b.actual)).any
          (fun r => r ≠ ValidatorResult.vtrue) = false := by
        rw [Bool.eq_false_iff]
        intro hc
        obtain ⟨r, hr, hne⟩ := List.any_eq_true.mp hc
        exact (by simpa using hne : r ≠ ValidatorResult.vtrue) (hall r hr)
      rw [hany]
      simp
  · intro hany
    rw [if_pos hany]
    unfold CeriosBuilder.renderValidatorError
    rfl

/-- Witness for C7: the spec scenario with a failing string validator,
a passing validator and a failing boolean validator. -/
theorem c7_validator_aggregation_witness :
    (CeriosBuilder.buildWithValidators
        { requiredTemplate := [], requiredFields := [], validators :=
            [fun _ => ValidatorResult.vmsg ("Age must be 18 or older"),
             fun _ => ValidatorResult.vtrue,
             fun _ => ValidatorResult.vfalse],
          actual := .obj [] } = .ok (.obj []) ↔
      ∀ r ∈ ([fun _ => ValidatorResult.vmsg ("Age must be 18 or older"),
              fun _ => ValidatorResult.vtrue,
              fun (_ : Jx) => ValidatorResult.vfalse].map (fun f => f (Jx.obj []))),
        r = ValidatorResult.vtrue) ∧
    (([fun _ => ValidatorResult.vmsg ("Age must be 18 or older"),
       fun _ => ValidatorResult.vtrue,
       fun (_ : Jx) => ValidatorResult.vfalse].map (fun f => f (Jx.obj []))).any
        (fun r => r ≠ ValidatorResult.vtrue) = true →
      CeriosBuilder.buildWithValidators
        { requiredTemplate := [], requiredFields := [], validators :=
            [fun _ => ValidatorResult.vmsg ("Age must be 18 or older"),
             fun _ => ValidatorResult.vtrue,
             fun _ => ValidatorResult.vfalse],
          actual := .obj [] } =
        .error (if ([fun _ => ValidatorResult.vmsg ("Age must be 18 or older"),
                     fun _ => ValidatorResult.vtrue,
                     fun (_ : Jx) => ValidatorResult.vfalse].map (fun f => f (Jx.obj []))).filter
                  (fun r => r ≠ ValidatorResult.vtrue) = [ValidatorResult.vfalse] then
            "Validation failed"
          else ("Validation failed: ") ++ String.intercalate ("; ")
            (([fun _ => ValidatorResult.vmsg ("Age must be 18 or older"),
               fun _ => ValidatorResult.vtrue,
               fun (_ : Jx) => ValidatorResult.vfalse].map
                (fun f => f (Jx.obj []))).filterMap CeriosBuilder.failureMessage))) :=
  c7_validator_aggregation _ rfl

/-- C8: every class-family build variant invokes the stored class
constructor on the accumulated partial instance and then copies all
partial-instance fields onto the constructed instance exactly when some
key of the partial instance carries a defined value there but reads as
undefined on the constructed instance; when the constructor
self-populates every supplied field no copy happens and the instance is
returned as constructed; the behaviour members are retained in every
case. -/
theorem c8_class_construction (v : ClassBuildVariant) (b : CeriosClassBuilder) :
    (runClassBuild v b).methods = (b.classCtor b.actual).methods ∧
    (runClassBuild v b).fields =
      (if (b.actual.map (fun f => f.1)).any (fun key =>
            isUndefined (instanceGet (b.classCtor b.actual) key) &&
            !(isUndefined (getProp (.obj b.actual) key))) then
        objectAssign (b.classCtor b.actual).fields b.actual
      else (b.classCtor b.actual).fields) ∧
    ((b.actual.map (fun f => f.1)).any (fun key =>
        isUndefined (instanceGet (b.classCtor b.actual) key) &&
        !(isUndefined (getProp (.obj b.actual) key))) = true ↔
      ∃ key ∈ b.actual.map (fun f => f.1),
        isUndefined (instanceGet (b.classCtor b.actual) key) = true ∧
        isUndefined (getProp (.obj b.actual) key) = false) ∧
    ((∀ key ∈ b.actual.map (fun f => f.1),
        isUndefined (getProp (.obj b.actual) key) = false →
        isUndefined (instanceGet (b.classCtor b.actual) key) = false) →
      runClassBuild v b = b.classCtor b.actual) := by
  have hrun : runClassBuild v b = CeriosClassBuilder.constructInstance b := by
    cases v <;> rfl
  rw [hrun]
  unfold CeriosClassBuilder.constructInstance
  refine ⟨?_, ?_, ?_, ?_⟩
  · by_cases ha : (b.actual.map (fun f => f.1)).any (fun key =>
        isUndefined (instanceGet (b.classCtor b.actual) key) &&
        !(isUndefined (getProp (.obj b.actual) key))) <;> simp [ha]
  · by_cases ha : (b.actual.map (fun f => f.1)).any (fun key =>
        isUndefined (instanceGet (b.classCtor b.actual) key) &&
        !(isUndefined (getProp (.obj b.actual) key))) <;> simp [ha]
  · rw [List.any_eq_true]
    constructor
    · rintro ⟨key, hmem, hkey⟩
      refine ⟨key, hmem, ?_, ?_⟩
      · exact (Bool.and_eq_true_iff.mp hkey).1
      · have := (Bool.and_eq_true_iff.mp hkey).2
        simpa using this
    · rintro ⟨key, hmem, h1, h2⟩
      exact ⟨key, hmem, by simp [h1, h2]⟩
  · intro hall
    have ha : (b.actual.map (fun f => f.1)).any (fun key =>
        isUndefined (instanceGet (b.classCtor b.actual) key) &&
        !(isUndefined (getProp (.obj b.actual) key))) = false := by
      rw [Bool.eq_false_iff]
      intro hc
      obtain ⟨key, hmem, hkey⟩ := List.any_eq_true.mp hc
      obtain ⟨h1, h2⟩ := Bool.and_eq_true_iff.mp hkey
      have h2' : isUndefined (getProp (.obj b.actual) key) = false := by simpa using h2
      rw [hall key hmem h2'] at h1
      exact Bool.false_ne_true h1
    simp [ha]

/-- Witness for C8: a self-populating constructor on which no copy
happens and the greet method survives. -/
theorem c8_class_construction_witness :
    (runClassBuild .buildV
        { classCtor := fun data => { fields := data, methods := ["greet"] },
          actual := [("name", .prim (.pstr ("John")))] }).methods =
      (({ fields := [("name", .prim (.pstr ("John")))], methods := ["greet"] } : ClassInstance)).methods ∧
    (runClassBuild .buildV
        { classCtor := fun data => { fields := data, methods := ["greet"] },
          actual := [("name", .prim (.pstr ("John")))] }).fields =
      (if ([("name", Jx.prim (.pstr ("John")))].map (fun f => f.1)).any (fun key =>
            isUndefined (instanceGet { fields := [("name", .prim (.pstr ("John")))], methods := ["greet"] } key) &&
            !(isUndefined (getProp (.obj [("name", .prim (.pstr ("John")))]) key))) then
        objectAssign [("name", .prim (.pstr ("John")))] [("name", .prim (.pstr ("John")))]
      else [("name", .prim (.pstr ("John")))]) ∧
    (([("name", Jx.prim (.pstr ("John")))].map (fun f => f.1)).any (fun key =>
        isUndefined (instanceGet { fields := [("name", .prim (.pstr ("John")))], methods := ["greet"] } key) &&
        !(isUndefined (getProp (.obj [("name", .prim (.pstr ("John")))]) key))) = true ↔
      ∃ key ∈ [("name", Jx.prim (.pstr ("John")))].map (fun f => f.1),
        isUndefined (instanceGet { fields := [("name", .prim (.pstr ("John")))], methods := ["greet"] } key) = true ∧
        isUndefined (getProp (.obj [("name", .prim (.pstr ("John")))]) key) = false) ∧
    ((∀ key ∈ [("name", Jx.prim (.pstr ("John")))].map (fun f => f.1),
        isUndefined (getProp (.obj [("name", .prim (.pstr ("John")))]) key) = false →
        isUndefined (instanceGet { fields := [("name", .prim (.pstr ("John")))], methods := ["greet"] } key) = false) →
      runClassBuild .buildV
        { classCtor := fun data => { fields := data, methods := ["greet"] },
          actual := [("name", .prim (.pstr ("John")))] } =
        { fields := [("name", .prim (.pstr ("John")))], methods := ["greet"] }) :=
  c8_class_construction .buildV
    { classCtor := fun data => { fields := data, methods := ["greet"] },
      actual := [("name", .prim (.pstr ("John")))] }

end Cerios

namespace CeriosH

theorem get_some_lt (h : Heap) (r : Ref) (c : HCell) (hg : h.get r = some c) : r < h.size := by
  by_contra hlt
  have : h.cells[r]? = none := List.getElem?_eq_none (Nat.le_of_not_lt hlt)
  rw [Heap.get, this] at hg
  exact Option.noConfusion hg

theorem get_alloc_lt (h : Heap) (c : HCell) (r : Ref) (hr : r < h.size) :
    (h.alloc c).1.get r = h.get r := by
  simp only [Heap.alloc, Heap.get]
  exact List.getElem?_append_left hr

theorem get_alloc_self (h : Heap) (c : HCell) :
    (h.alloc c).1.get (h.alloc c).2 = some c := by
  simp only [Heap.alloc, Heap.get]
  exact List.getElem?_concat_length h.cells c

theorem alloc_size (h : Heap) (c : HCell) : (h.alloc c).1.size = h.size + 1 := by
  simp [Heap.alloc, Heap.size]

theorem alloc_ref (h : Heap) (c : HCell) : (h.alloc c).2 = h.size := rfl

theorem get_write_ne (h : Heap) (r : Ref) (c : HCell) (r' : Ref) (hne : r' ≠ r) :
    (h.write r c).get r' = h.get r' := by
  simp only [Heap.write, Heap.get]
  exact List.getElem?_set_ne (fun hh => hne hh.symm)

theorem get_write_self (h : Heap) (r : Ref) (c : HCell) (hr : r < h.size) :
    (h.write r c).get r = some c := by
  simp only [Heap.write, Heap.get]
  exact List.getElem?_set_self hr

theorem write_size (h : Heap) (r : Ref) (c : HCell) : (h.write r c).size = h.size := by
  simp [Heap.write, Heap.size]

theorem preservedBelow_refl (n : Nat) (h : Heap) : PreservedBelow n h h :=
  ⟨Nat.le_refl _, fun _ _ => rfl, rfl, rfl⟩

theorem preservedBelow_trans {n : Nat} {h1 h2 h3 : Heap}
    (a : PreservedBelow n h1 h2) (b : PreservedBelow n h2 h3) : PreservedBelow n h1 h3 :=
  ⟨Nat.le_trans a.1 b.1, fun r hr => (b.2.1 r hr).trans (a.2.1 r hr),
   b.2.2.1.trans a.2.2.1, b.2.2.2.trans a.2.2.2⟩

theorem preservedBelow_mono {n m : Nat} {h1 h2 : Heap} (hm : m ≤ n)
    (a : PreservedBelow n h1 h2) : PreservedBelow m h1 h2 :=
  ⟨a.1, fun r hr => a.2.1 r (Nat.lt_of_lt_of_le hr hm), a.2.2.1, a.2.2.2⟩

theorem preservedBelow_alloc (n : Nat) (h : Heap) (c : HCell) (hn : n ≤ h.size) :
    PreservedBelow n h (h.alloc c).1 := by
  refine ⟨?_, ?_, rfl, rfl⟩
  · rw [alloc_size]; exact Nat.le_succ _
  · intro r hr
    exact get_alloc_lt h c r (Nat.lt_of_lt_of_le hr hn)

theorem preservedBelow_write (n : Nat) (h : Heap) (r : Ref) (c : HCell) (hn : n ≤ r) :
    PreservedBelow n h (h.write r c) := by
  refine ⟨Nat.le_of_eq (write_size h r c).symm, ?_, rfl, rfl⟩
  intro r' hr'
  exact get_write_ne h r c r' (Nat.ne_of_lt (Nat.lt_of_lt_of_le hr' hn))

theorem preservedBelow_writeField (n : Nat) (h : Heap) (r : Ref) (k : String) (v : HVal)
    (hn : n ≤ r) : PreservedBelow n h (writeField h r k v) := by
  unfold writeField
  cases h.get r with
  | none => exact preservedBelow_refl n h
  | some c =>
    cases c with
    | obj fs => exact preservedBelow_write n h r _ hn
    | arr es => exact preservedBelow_write n h r _ hn
    | strset ss => exact preservedBelow_refl n h

theorem writeField_size (h : Heap) (r : Ref) (k : String) (v : HVal) :
    (writeField h r k v).size = h.size := by
  unfold writeField
  cases h.get r with
  | none => rfl
  | some c => cases c <;> simp [write_size]

theorem strs_congr {h1 h2 : Heap} (r : Ref) (hg : h2.get r = h1.get r) :
    h2.strs r = h1.strs r := by
  unfold Heap.strs
  rw [hg]

theorem deepCloneH_zero (h : Heap) (v : HVal) :
    deepCloneH 0 h v =
      (match v with
       | .prim p => (h, .prim p)
       | .ref _ =>
         let (h1, r1) := h.alloc (.obj [])
         (h1, .ref r1)) := rfl

theorem deepCloneH_succ (fuel : Nat) (h : Heap) (v : HVal) :
    deepCloneH (fuel + 1) h v =
      (match v with
       | .prim p => (h, .prim p)
       | .ref r =>
         match h.get r with
         | some (.obj fs) =>
           let (h1, fs1) := cloneFieldsWith (deepCloneH fuel) h fs
           let (h2, r2) := h1.alloc (.obj fs1)
           (h2, .ref r2)
         | some (.arr es) =>
           let (h1, es1) := cloneElemsWith (deepCloneH fuel) h es
           let (h2, r2) := h1.alloc (.arr es1)
           (h2, .ref r2)
         | _ =>
           let (h1, r1) := h.alloc (.obj [])
           (h1, .ref r1)) := rfl

theorem readH_zero (h : Heap) (v : HVal) :
    readH 0 h v =
      (match v with
       | .prim p => some (.prim p)
       | .ref _ => none) := rfl

theorem readH_succ (fuel : Nat) (h : Heap) (v : HVal) :
    readH (fuel + 1) h v =
      (match v with
       | .prim p => some (.prim p)
       | .ref r =>
         match h.get r with
         | some (.obj fs) => (readFieldsWith (readH fuel h) fs).map Cerios.Jx.obj
         | some (.arr es) => (readElemsWith (readH fuel h) es).map Cerios.Jx.arr
         | _ => none) := rfl

theorem hRefs_zero (h : Heap) (v : HVal) :
    hRefs 0 h v =
      (match v with
       | .prim _ => []
       | .ref r => [r]) := rfl

theorem hRefs_succ (fuel : Nat) (h : Heap) (v : HVal) :
    hRefs (fuel + 1) h v =
      (match v with
       | .prim _ => []
       | .ref r =>
         match h.get r with
         | some (.obj fs) => r :: refsFieldsWith (hRefs fuel h) fs
         | some (.arr es) => r :: refsElemsWith (hRefs fuel h) es
         | _ => [r]) := rfl

theorem deepFreezeH_succ (fuel : Nat) (h : Heap) (v : HVal) :
    deepFreezeH (fuel + 1) h v =
      (match v with
       | .prim _ => h
       | .ref r =>
         match h.get r with
         | some (.obj fs) => freezeRef (lockListWith (deepFreezeH fuel) h (fs.map (fun f => f.2))) r
         | some (.arr es) => freezeRef (lockListWith (deepFreezeH fuel) h es) r
         | _ => freezeRef h r) := rfl

theorem deepSealH_succ (fuel : Nat) (h : Heap) (v : HVal) :
    deepSealH (fuel + 1) h v =
      (match v with
       | .prim _ => h
       | .ref r =>
         match h.get r with
         | some (.obj fs) => sealRef (lockListWith (deepSealH fuel) h (fs.map (fun f => f.2))) r
         | some (.arr es) => sealRef (lockListWith (deepSealH fuel) h es) r
         | _ => sealRef h r) := rfl

theorem cloneFieldsWith_frame (f : Heap → HVal → Heap × HVal)
    (hf : ∀ (h : Heap) (v : HVal), PreservedBelow h.size h (f h v).1) :
    ∀ (fs : List (String × HVal)) (h : Heap),
      PreservedBelow h.size h (cloneFieldsWith f h fs).1 := by
  intro fs
  induction fs with
  | nil => intro h; exact preservedBelow_refl _ _
  | cons fld fs ih =>
    intro h
    rcases hfv : f h fld.2 with ⟨h1, v1⟩
    rcases hcs : cloneFieldsWith f h1 fs with ⟨h2, fs1⟩
    simp only [cloneFieldsWith, hfv, hcs]
    have p1 : PreservedBelow h.size h h1 := by
      have := hf h fld.2
      rw [hfv] at this
      exact this
    have p2 : PreservedBelow h1.size h1 h2 := by
      have := ih h1
      rw [hcs] at this
      exact this
    exact preservedBelow_trans p1 (preservedBelow_mono p1.1 p2)

theorem cloneElemsWith_frame (f : Heap → HVal → Heap × HVal)
    (hf : ∀ (h : Heap) (v : HVal), PreservedBelow h.size h (f h v).1) :
    ∀ (es : List HVal) (h : Heap),
      PreservedBelow h.size h (cloneElemsWith f h es).1 := by
  intro es
  induction es with
  | nil => intro h; exact preservedBelow_refl _ _
  | cons v es ih =>
    intro h
    rcases hfv : f h v with ⟨h1, v1⟩
    rcases hcs : cloneElemsWith f h1 es with ⟨h2, es1⟩
    simp only [cloneElemsWith, hfv, hcs]
    have p1 : PreservedBelow h.size h h1 := by
      have := hf h v
      rw [hfv] at this
      exact this
    have p2 : PreservedBelow h1.size h1 h2 := by
      have := ih h1
      rw [hcs] at this
      exact this
    exact preservedBelow_trans p1 (preservedBelow_mono p1.1 p2)

theorem deepCloneH_prim (fuel : Nat) (h : Heap) (p : Cerios.Prim) :
    deepCloneH fuel h (.prim p) = (h, .prim p) := by
  cases fuel <;> rfl

theorem deepCloneH_ref_zero (h : Heap) (r : Ref) :
    deepCloneH 0 h (.ref r) = ((h.alloc (.obj [])).1, .ref (h.alloc (.obj [])).2) := rfl

theorem deepCloneH_ref_obj (fuel : Nat) (h : Heap) (r : Ref) (fs : List (String × HVal))
    (hg : h.get r = some (.obj fs)) :
    deepCloneH (fuel + 1) h (.ref r) =
      (((cloneFieldsWith (deepCloneH fuel) h fs).1.alloc
          (.obj (cloneFieldsWith (deepCloneH fuel) h fs).2)).1,
       .ref ((cloneFieldsWith (deepCloneH fuel) h fs).1.alloc
          (.obj (cloneFieldsWith (deepCloneH fuel) h fs).2)).2) := by
  rw [deepCloneH_succ]
  dsimp only
  rw [hg]

theorem deepCloneH_ref_arr (fuel : Nat) (h : Heap) (r : Ref) (es : List HVal)
    (hg : h.get r = some (.arr es)) :
    deepCloneH (fuel + 1) h (.ref r) =
      (((cloneElemsWith (deepCloneH fuel) h es).1.alloc
          (.arr (cloneElemsWith (deepCloneH fuel) h es).2)).1,
       .ref ((cloneElemsWith (deepCloneH fuel) h es).1.alloc
          (.arr (cloneElemsWith (deepCloneH fuel) h es).2)).2) := by
  rw [deepCloneH_succ]
  dsimp only
  rw [hg]

theorem deepCloneH_ref_strset (fuel : Nat) (h : Heap) (r : Ref) (ss : List String)
    (hg : h.get r = some (.strset ss)) :
    deepCloneH (fuel + 1) h (.ref r) = ((h.alloc (.obj [])).1, .ref (h.alloc (.obj [])).2) := by
  rw [deepCloneH_succ]
  dsimp only
  rw [hg]

theorem deepCloneH_ref_none (fuel : Nat) (h : Heap) (r : Ref)
    (hg : h.get r = none) :
    deepCloneH (fuel + 1) h (.ref r) = ((h.alloc (.obj [])).1, .ref (h.alloc (.obj [])).2) := by
  rw [deepCloneH_succ]
  dsimp only
  rw [hg]

theorem deepCloneH_frame : ∀ (fuel : Nat) (h : Heap) (v : HVal),
    PreservedBelow h.size h (deepCloneH fuel h v).1 := by
  intro fuel
  induction fuel with
  | zero =>
    intro h v
    cases v with
    | prim p => exact preservedBelow_refl _ _
    | ref r =>
      rw [deepCloneH_ref_zero]
      exact preservedBelow_alloc _ _ _ (Nat.le_refl _)
  | succ fuel ih =>
    intro h v
    cases v with
    | prim p =>
      rw [deepCloneH_prim]
      exact preservedBelow_refl _ _
    | ref r =>
      cases hg : h.get r with
      | none =>
        rw [deepCloneH_ref_none fuel h r hg]
        exact preservedBelow_alloc _ _ _ (Nat.le_refl _)
      | some c =>
        cases c with
        | obj fs =>
          rw [deepCloneH_ref_obj fuel h r fs hg]
          have p1 : PreservedBelow h.size h (cloneFieldsWith (deepCloneH fuel) h fs).1 :=
            cloneFieldsWith_frame (deepCloneH fuel) ih fs h
          exact preservedBelow_trans p1
            (preservedBelow_mono p1.1 (preservedBelow_alloc _ _ _ (Nat.le_refl _)))
        | arr es =>
          rw [deepCloneH_ref_arr fuel h r es hg]
          have p1 : PreservedBelow h.size h (cloneElemsWith (deepCloneH fuel) h es).1 :=
            cloneElemsWith_frame (deepCloneH fuel) ih es h
          exact preservedBelow_trans p1
            (preservedBelow_mono p1.1 (preservedBelow_alloc _ _ _ (Nat.le_refl _)))
        | strset ss =>
          rw [deepCloneH_ref_strset fuel h r ss hg]
          exact preservedBelow_alloc _ _ _ (Nat.le_refl _)

theorem deepCloneH_ref_fresh (fuel : Nat) (h : Heap) (r : Ref) :
    h.size ≤ refOf (deepCloneH fuel h (.ref r)).2 ∧
    (deepCloneH fuel h (.ref r)).2 = .ref (refOf (deepCloneH fuel h (.ref r)).2) := by
  cases fuel with
  | zero =>
    rw [deepCloneH_ref_zero]
    exact ⟨Nat.le_refl _, rfl⟩
  | succ fuel =>
    cases hg : h.get r with
    | none =>
      rw [deepCloneH_ref_none fuel h r hg]
      exact ⟨Nat.le_refl _, rfl⟩
    | some c =>
      cases c with
      | obj fs =>
        rw [deepCloneH_ref_obj fuel h r fs hg]
        exact ⟨(cloneFieldsWith_frame (deepCloneH fuel)
          (fun h v => deepCloneH_frame fuel h v) fs h).1, rfl⟩
      | arr es =>
        rw [deepCloneH_ref_arr fuel h r es hg]
        exact ⟨(cloneElemsWith_frame (deepCloneH fuel)
          (fun h v => deepCloneH_frame fuel h v) es h).1, rfl⟩
      | strset ss =>
        rw [deepCloneH_ref_strset fuel h r ss hg]
        exact ⟨Nat.le_refl _, rfl⟩

theorem readFieldsWith_mono (f g : HVal → Option Cerios.Jx)
    (hw : ∀ v t, f v = some t → g v = some t) :
    ∀ (fs : List (String × HVal)) (ts : List (String × Cerios.Jx)),
      readFieldsWith f fs = some ts → readFieldsWith g fs = some ts := by
  intro fs
  induction fs with
  | nil => intro ts h; exact h
  | cons fld fs ih =>
    intro ts h
    simp only [readFieldsWith] at h ⊢
    cases hf : f fld.2 with
    | none => rw [hf] at h; simp at h
    | some t1 =>
      rw [hf] at h
      cases hr : readFieldsWith f fs with
      | none => rw [hr] at h; simp at h
      | some ts1 =>
        rw [hr] at h
        rw [hw _ _ hf, ih ts1 hr]
        exact h

theorem readElemsWith_mono (f g : HVal → Option Cerios.Jx)
    (hw : ∀ v t, f v = some t → g v = some t) :
    ∀ (es : List HVal) (ts : List Cerios.Jx),
      readElemsWith f es = some ts → readElemsWith g es = some ts := by
  intro es
  induction es with
  | nil => intro ts h; exact h
  | cons v es ih =>
    intro ts h
    simp only [readElemsWith] at h ⊢
    cases hf : f v with
    | none => rw [hf] at h; simp at h
    | some t1 =>
      rw [hf] at h
      cases hr : readElemsWith f es with
      | none => rw [hr] at h; simp at h
      | some ts1 =>
        rw [hr] at h
        rw [hw _ _ hf, ih ts1 hr]
        exact h

theorem readH_stable : ∀ (fuel : Nat) (h1 h2 : Heap),
    (∀ (r : Ref) (c : HCell), h1.get r = some c → h2.get r = some c) →
    ∀ (v : HVal) (t : Cerios.Jx), readH fuel h1 v = some t → readH fuel h2 v = some t := by
  intro fuel
  induction fuel with
  | zero =>
    intro h1 h2 _ v t h
    cases v with
    | prim p => exact h
    | ref r => rw [readH_zero] at h; simp at h
  | succ fuel ih =>
    intro h1 h2 hag v t h
    cases v with
    | prim p => exact h
    | ref r =>
      rw [readH_succ] at h ⊢
      dsimp only at h ⊢
      cases hg : h1.get r with
      | none => rw [hg] at h; simp at h
      | some c =>
        rw [hg] at h
        rw [hag r c hg]
        cases c with
        | obj fs =>
          dsimp only at h ⊢
          cases hr : readFieldsWith (readH fuel h1) fs with
          | none => rw [hr] at h; simp at h
          | some ts =>
            rw [hr] at h
            rw [readFieldsWith_mono _ _ (ih h1 h2 hag) fs ts hr]
            exact h
        | arr es =>
          dsimp only at h ⊢
          cases hr : readElemsWith (readH fuel h1) es with
          | none => rw [hr] at h; simp at h
          | some ts =>
            rw [hr] at h
            rw [readElemsWith_mono _ _ (ih h1 h2 hag) es ts hr]
            exact h
        | strset ss => dsimp only at h; simp at h

theorem preservedBelow_get_some {h1 h2 : Heap} (p : PreservedBelow h1.size h1 h2) :
    ∀ (r : Ref) (c : HCell), h1.get r = some c → h2.get r = some c := by
  intro r c hg
  rw [p.2.1 r (get_some_lt h1 r c hg)]
  exact hg

theorem refsFieldsWith_bounded (f : HVal → Option Cerios.Jx) (g : HVal → List Ref)
    (P : Ref → Prop)
    (hfg : ∀ (v : HVal) (t : Cerios.Jx), f v = some t → ∀ r ∈ g v, P r) :
    ∀ (fs : List (String × HVal)) (ts : List (String × Cerios.Jx)),
      readFieldsWith f fs = some ts → ∀ r ∈ refsFieldsWith g fs, P r := by
  intro fs
  induction fs with
  | nil => intro ts _ r hr; simp [refsFieldsWith] at hr
  | cons fld fs ih =>
    intro ts h r hr
    simp only [readFieldsWith] at h
    cases hf : f fld.2 with
    | none => rw [hf] at h; simp at h
    | some t1 =>
      rw [hf] at h
      cases hrest : readFieldsWith f fs with
      | none => rw [hrest] at h; simp at h
      | some ts1 =>
        simp only [refsFieldsWith, List.mem_append] at hr
        cases hr with
        | inl hr => exact hfg fld.2 t1 hf r hr
        | inr hr => exact ih ts1 hrest r hr

theorem refsElemsWith_bounded (f : HVal → Option Cerios.Jx) (g : HVal → List Ref)
    (P : Ref → Prop)
    (hfg : ∀ (v : HVal) (t : Cerios.Jx), f v = some t → ∀ r ∈ g v, P r) :
    ∀ (es : List HVal) (ts : List Cerios.Jx),
      readElemsWith f es = some ts → ∀ r ∈ refsElemsWith g es, P r := by
  intro es
  induction es with
  | nil => intro ts _ r hr; simp [refsElemsWith] at hr
  | cons v es ih =>
    intro ts h r hr
    simp only [readElemsWith] at h
    cases hf : f v with
    | none => rw [hf] at h; simp at h
    | some t1 =>
      rw [hf] at h
      cases hrest : readElemsWith f es with
      | none => rw [hrest] at h; simp at h
      | some ts1 =>
        simp only [refsElemsWith, List.mem_append] at hr
        cases hr with
        | inl hr => exact hfg v t1 hf r hr
        | inr hr => exact ih ts1 hrest r hr

theorem hRefs_bounded : ∀ (fuel : Nat) (h : Heap) (v : HVal) (t : Cerios.Jx),
    readH fuel h v = some t → ∀ r ∈ hRefs fuel h v, r < h.size := by
  intro fuel
  induction fuel with
  | zero =>
    intro h v t hread r hr
    cases v with
    | prim p => simp [hRefs_zero] at hr
    | ref r0 => rw [readH_zero] at hread; simp at hread
  | succ fuel ih =>
    intro h v t hread r hr
    cases v with
    | prim p => simp [hRefs_succ] at hr
    | ref r0 =>
      rw [readH_succ] at hread
      dsimp only at hread
      rw [hRefs_succ] at hr
      dsimp only at hr
      cases hg : h.get r0 with
      | none => rw [hg] at hread; simp at hread
      | some c =>
        rw [hg] at hread hr
        cases c with
        | obj fs =>
          dsimp only at hread hr
          cases hrf : readFieldsWith (readH fuel h) fs with
          | none => rw [hrf] at hread; simp at hread
          | some ts =>
            simp only [List.mem_cons] at hr
            cases hr with
            | inl hr => exact hr ▸ get_some_lt h r0 _ hg
            | inr hr =>
              exact refsFieldsWith_bounded (readH fuel h) (hRefs fuel h) _
                (fun v t hv => ih h v t hv) fs ts hrf r hr
        | arr es =>
          dsimp only at hread hr
          cases hrf : readElemsWith (readH fuel h) es with
          | none => rw [hrf] at hread; simp at hread
          | some ts =>
            simp only [List.mem_cons] at hr
            cases hr with
            | inl hr => exact hr ▸ get_some_lt h r0 _ hg
            | inr hr =>
              exact refsElemsWith_bounded (readH fuel h) (hRefs fuel h) _
                (fun v t hv => ih h v t hv) es ts hrf r hr
        | strset ss => dsimp only at hread; simp at hread

theorem refsFieldsWith_congr (f : HVal → Option Cerios.Jx) (g1 g2 : HVal → List Ref)
    (hc : ∀ (v : HVal) (t : Cerios.Jx), f v = some t → g2 v = g1 v) :
    ∀ (fs : List (String × HVal)) (ts : List (String × Cerios.Jx)),
      readFieldsWith f fs = some ts →
      refsFieldsWith g2 fs = refsFieldsWith g1 fs := by
  intro fs
  induction fs with
  | nil => intro ts _; rfl
  | cons fld fs ih =>
    intro ts h
    simp only [readFieldsWith] at h
    cases hf : f fld.2 with
    | none => rw [hf] at h; simp at h
    | some t1 =>
      rw [hf] at h
      cases hrest : readFieldsWith f fs with
      | none => rw [hrest] at h; simp at h
      | some ts1 =>
        simp only [refsFieldsWith]
        rw [hc fld.2 t1 hf, ih ts1 hrest]

theorem refsElemsWith_congr (f : HVal → Option Cerios.Jx) (g1 g2 : HVal → List Ref)
    (hc : ∀ (v : HVal) (t : Cerios.Jx), f v = some t → g2 v = g1 v) :
    ∀ (es : List HVal) (ts : List Cerios.Jx),
      readElemsWith f es = some ts →
      refsElemsWith g2 es = refsElemsWith g1 es := by
  intro es
  induction es with
  | nil => intro ts _; rfl
  | cons v es ih =>
    intro ts h
    simp only [readElemsWith] at h
    cases hf : f v with
    | none => rw [hf] at h; simp at h
    | some t1 =>
      rw [hf] at h
      cases hrest : readElemsWith f es with
      | none => rw [hrest] at h; simp at h
      | some ts1 =>
        simp only [refsElemsWith]
        rw [hc v t1 hf, ih ts1 hrest]

theorem hRefs_stable : ∀ (fuel : Nat) (h1 h2 : Heap),
    (∀ (r : Ref) (c : HCell), h1.get r = some c → h2.get r = some c) →
    ∀ (v : HVal) (t : Cerios.Jx), readH fuel h1 v = some t →
      hRefs fuel h2 v = hRefs fuel h1 v := by
  intro fuel
  induction fuel with
  | zero =>
    intro h1 h2 _ v t h
    cases v with
    | prim p => rfl
    | ref r => rw [readH_zero] at h; simp at h
  | succ fuel ih =>
    intro h1 h2 hag v t h
    cases v with
    | prim p => rfl
    | ref r =>
      rw [readH_succ] at h
      dsimp only at h
      rw [hRefs_succ, hRefs_succ]
      dsimp only
      cases hg : h1.get r with
      | none => rw [hg] at h; simp at h
      | some c =>
        rw [hg] at h
        rw [hag r c hg]
        cases c with
        | obj fs =>
          dsimp only at h ⊢
          cases hrf : readFieldsWith (readH fuel h1) fs with
          | none => rw [hrf] at h; simp at h
          | some ts =>
            rw [refsFieldsWith_congr (readH fuel h1) (hRefs fuel h1) (hRefs fuel h2)
              (fun v t hv => ih h1 h2 hag v t hv) fs ts hrf]
        | arr es =>
          dsimp only at h ⊢
          cases hrf : readElemsWith (readH fuel h1) es with
          | none => rw [hrf] at h; simp at h
          | some ts =>
            rw [refsElemsWith_congr (readH fuel h1) (hRefs fuel h1) (hRefs fuel h2)
              (fun v t hv => ih h1 h2 hag v t hv) es ts hrf]
        | strset ss => dsimp only at h; simp at h

theorem cloneFieldsWith_ok (fuel : Nat)
    (hok : ∀ (h : Heap) (v : HVal) (t : Cerios.Jx), readH fuel h v = some t →
      readH fuel (deepCloneH fuel h v).1 (deepCloneH fuel h v).2 = some t ∧
      ∀ r ∈ hRefs fuel (deepCloneH fuel h v).1 (deepCloneH fuel h v).2, h.size ≤ r) :
    ∀ (fs : List (String × HVal)) (ts : List (String × Cerios.Jx)) (h : Heap),
      readFieldsWith (readH fuel h) fs = some ts →
      readFieldsWith (readH fuel (cloneFieldsWith (deepCloneH fuel) h fs).1)
          (cloneFieldsWith (deepCloneH fuel) h fs).2 = some ts ∧
      ∀ r ∈ refsFieldsWith (hRefs fuel (cloneFieldsWith (deepCloneH fuel) h fs).1)
          (cloneFieldsWith (deepCloneH fuel) h fs).2, h.size ≤ r := by
  intro fs
  induction fs with
  | nil =>
    intro ts h hread
    refine ⟨hread, ?_⟩
    intro r hr
    simp [cloneFieldsWith, refsFieldsWith] at hr
  | cons fld fs ih =>
    intro ts h hread
    simp only [readFieldsWith] at hread
    cases hf : readH fuel h fld.2 with
    | none => rw [hf] at hread; simp at hread
    | some t1 =>
      rw [hf] at hread
      cases hrest : readFieldsWith (readH fuel h) fs with
      | none => rw [hrest] at hread; simp at hread
      | some ts1 =>
        rw [hrest] at hread
        rcases hA : deepCloneH fuel h fld.2 with ⟨hA1, v1⟩
        rcases hB : cloneFieldsWith (deepCloneH fuel) hA1 fs with ⟨hB1, fs1⟩
        simp only [cloneFieldsWith, hA, hB]
        have pA : PreservedBelow h.size h hA1 := by
          have := deepCloneH_frame fuel h fld.2
          rw [hA] at this
          exact this
        have pB : PreservedBelow hA1.size hA1 hB1 := by
          have := cloneFieldsWith_frame (deepCloneH fuel)
            (fun h v => deepCloneH_frame fuel h v) fs hA1
          rw [hB] at this
          exact this
        have hv1 : readH fuel hA1 v1 = some t1 ∧ ∀ r ∈ hRefs fuel hA1 v1, h.size ≤ r := by
          have := hok h fld.2 t1 hf
          rw [hA] at this
          exact this
        have hrestA : readFieldsWith (readH fuel hA1) fs = some ts1 :=
          readFieldsWith_mono _ _
            (readH_stable fuel h hA1 (preservedBelow_get_some pA)) fs ts1 hrest
        have hrec := ih ts1 hA1 hrestA
        rw [hB] at hrec
        have hv1B : readH fuel hB1 v1 = some t1 :=
          readH_stable fuel hA1 hB1 (preservedBelow_get_some pB) v1 t1 hv1.1
        have hrefs1B : hRefs fuel hB1 v1 = hRefs fuel hA1 v1 :=
          hRefs_stable fuel hA1 hB1 (preservedBelow_get_some pB) v1 t1 hv1.1
        constructor
        · simp only [readFieldsWith, hv1B, hrec.1]
          exact hread
        · intro r hr
          simp only [refsFieldsWith, List.mem_append] at hr
          cases hr with
          | inl hr =>
            rw [hrefs1B] at hr
            exact hv1.2 r hr
          | inr hr => exact Nat.le_trans pA.1 (hrec.2 r hr)

theorem cloneElemsWith_ok (fuel : Nat)
    (hok : ∀ (h : Heap) (v : HVal) (t : Cerios.Jx), readH fuel h v = some t →
      readH fuel (deepCloneH fuel h v).1 (deepCloneH fuel h v).2 = some t ∧
      ∀ r ∈ hRefs fuel (deepCloneH fuel h v).1 (deepCloneH fuel h v).2, h.size ≤ r) :
    ∀ (es : List HVal) (ts : List Cerios.Jx) (h : Heap),
      readElemsWith (readH fuel h) es = some ts →
      readElemsWith (readH fuel (cloneElemsWith (deepCloneH fuel) h es).1)
          (cloneElemsWith (deepCloneH fuel) h es).2 = some ts ∧
      ∀ r ∈ refsElemsWith (hRefs fuel (cloneElemsWith (deepCloneH fuel) h es).1)
          (cloneElemsWith (deepCloneH fuel) h es).2, h.size ≤ r := by
  intro es
  induction es with
  | nil =>
    intro ts h hread
    refine ⟨hread, ?_⟩
    intro r hr
    simp [cloneElemsWith, refsElemsWith] at hr
  | cons v es ih =>
    intro ts h hread
    simp only [readElemsWith] at hread
    cases hf : readH fuel h v with
    | none => rw [hf] at hread; simp at hread
    | some t1 =>
      rw [hf] at hread
      cases hrest : readElemsWith (readH fuel h) es with
      | none => rw [hrest] at hread; simp at hread
      | some ts1 =>
        rw [hrest] at hread
        rcases hA : deepCloneH fuel h v with ⟨hA1, v1⟩
        rcases hB : cloneElemsWith (deepCloneH fuel) hA1 es with ⟨hB1, es1⟩
        simp only [cloneElemsWith, hA, hB]
        have pA : PreservedBelow h.size h hA1 := by
          have := deepCloneH_frame fuel h v
          rw [hA] at this
          exact this
        have pB : PreservedBelow hA1.size hA1 hB1 := by
          have := cloneElemsWith_frame (deepCloneH fuel)
            (fun h v => deepCloneH_frame fuel h v) es hA1
          rw [hB] at this
          exact this
        have hv1 : readH fuel hA1 v1 = some t1 ∧ ∀ r ∈ hRefs fuel hA1 v1, h.size ≤ r := by
          have := hok h v t1 hf
          rw [hA] at this
          exact this
        have hrestA : readElemsWith (readH fuel hA1) es = some ts1 :=
          readElemsWith_mono _ _
            (readH_stable fuel h hA1 (preservedBelow_get_some pA)) es ts1 hrest
        have hrec := ih ts1 hA1 hrestA
        rw [hB] at hrec
        have hv1B : readH fuel hB1 v1 = some t1 :=
          readH_stable fuel hA1 hB1 (preservedBelow_get_some pB) v1 t1 hv1.1
        have hrefs1B : hRefs fuel hB1 v1 = hRefs fuel hA1 v1 :=
          hRefs_stable fuel hA1 hB1 (preservedBelow_get_some pB) v1 t1 hv1.1
        constructor
        · simp only [readElemsWith, hv1B, hrec.1]
          exact hread
        · intro r hr
          simp only [refsElemsWith, List.mem_append] at hr
          cases hr with
          | inl hr =>
            rw [hrefs1B] at hr
            exact hv1.2 r hr
          | inr hr => exact Nat.le_trans pA.1 (hrec.2 r hr)

theorem deepCloneH_ok : ∀ (fuel : Nat) (h : Heap) (v : HVal) (t : Cerios.Jx),
    readH fuel h v = some t →
    readH fuel (deepCloneH fuel h v).1 (deepCloneH fuel h v).2 = some t ∧
    ∀ r ∈ hRefs fuel (deepCloneH fuel h v).1 (deepCloneH fuel h v).2, h.size ≤ r := by
  intro fuel
  induction fuel with
  | zero =>
    intro h v t hread
    cases v with
    | prim p =>
      rw [deepCloneH_prim]
      exact ⟨hread, by intro r hr; simp [hRefs_zero] at hr⟩
    | ref r => rw [readH_zero] at hread; simp at hread
  | succ fuel ih =>
    intro h v t hread
    cases v with
    | prim p =>
      rw [deepCloneH_prim]
      exact ⟨hread, by intro r hr; simp [hRefs_succ] at hr⟩
    | ref r0 =>
      rw [readH_succ] at hread
      dsimp only at hread
      cases hg : h.get r0 with
      | none => rw [hg] at hread; simp at hread
      | some c =>
        rw [hg] at hread
        cases c with
        | obj fs =>
          dsimp only at hread
          cases hrf : readFieldsWith (readH fuel h) fs with
          | none => rw [hrf] at hread; simp at hread
          | some ts =>
            rw [hrf] at hread
            rw [deepCloneH_ref_obj fuel h r0 fs hg]
            have hcf := cloneFieldsWith_ok fuel ih fs ts h hrf
            rcases hB : cloneFieldsWith (deepCloneH fuel) h fs with ⟨h1, fs1⟩
            rw [hB] at hcf
            dsimp only at hcf
            have pB : PreservedBelow h.size h h1 := by
              have := cloneFieldsWith_frame (deepCloneH fuel)
                (fun h v => deepCloneH_frame fuel h v) fs h
              rw [hB] at this
              exact this
            simp only [hB]
            have hall : (h1.alloc (.obj fs1)).1.get (h1.alloc (.obj fs1)).2 =
                some (.obj fs1) := get_alloc_self h1 _
            have pAl : PreservedBelow h1.size h1 (h1.alloc (.obj fs1)).1 :=
              preservedBelow_alloc _ _ _ (Nat.le_refl _)
            constructor
            · rw [readH_succ]
              dsimp only
              rw [hall]
              dsimp only
              have : readFieldsWith (readH fuel (h1.alloc (.obj fs1)).1) fs1 = some ts :=
                readFieldsWith_mono _ _
                  (readH_stable fuel h1 _ (preservedBelow_get_some pAl)) fs1 ts hcf.1
              rw [this]
              exact hread
            · intro r hr
              rw [hRefs_succ] at hr
              dsimp only at hr
              rw [hall] at hr
              dsimp only at hr
              simp only [List.mem_cons] at hr
              cases hr with
              | inl hr =>
                rw [hr, alloc_ref]
                exact pB.1
              | inr hr =>
                have hcong : refsFieldsWith (hRefs fuel (h1.alloc (.obj fs1)).1) fs1 =
                    refsFieldsWith (hRefs fuel h1) fs1 :=
                  refsFieldsWith_congr (readH fuel h1) (hRefs fuel h1) _
                    (fun v t hv => hRefs_stable fuel h1 _ (preservedBelow_get_some pAl) v t hv)
                    fs1 ts hcf.1
                rw [hcong] at hr
                exact hcf.2 r hr
        | arr es =>
          dsimp only at hread
          cases hrf : readElemsWith (readH fuel h) es with
          | none => rw [hrf] at hread; simp at hread
          | some ts =>
            rw [hrf] at hread
            rw [deepCloneH_ref_arr fuel h r0 es hg]
            have hcf := cloneElemsWith_ok fuel ih es ts h hrf
            rcases hB : cloneElemsWith (deepCloneH fuel) h es with ⟨h1, es1⟩
            rw [hB] at hcf
            dsimp only at hcf
            have pB : PreservedBelow h.size h h1 := by
              have := cloneElemsWith_frame (deepCloneH fuel)
                (fun h v => deepCloneH_frame fuel h v) es h
              rw [hB] at this
              exact this
            simp only [hB]
            have hall : (h1.alloc (.arr es1)).1.get (h1.alloc (.arr es1)).2 =
                some (.arr es1) := get_alloc_self h1 _
            have pAl : PreservedBelow h1.size h1 (h1.alloc (.arr es1)).1 :=
              preservedBelow_alloc _ _ _ (Nat.le_refl _)
            constructor
            · rw [readH_succ]
              dsimp only
              rw [hall]
              dsimp only
              have : readElemsWith (readH fuel (h1.alloc (.arr es1)).1) es1 = some ts :=
                readElemsWith_mono _ _
                  (readH_stable fuel h1 _ (preservedBelow_get_some pAl)) es1 ts hcf.1
              rw [this]
              exact hread
            · intro r hr
              rw [hRefs_succ] at hr
              dsimp only at hr
              rw [hall] at hr
              dsimp only at hr
              simp only [List.mem_cons] at hr
              cases hr with
              | inl hr =>
                rw [hr, alloc_ref]
                exact pB.1
              | inr hr =>
                have hcong : refsElemsWith (hRefs fuel (h1.alloc (.arr es1)).1) es1 =
                    refsElemsWith (hRefs fuel h1) es1 :=
                  refsElemsWith_congr (readH fuel h1) (hRefs fuel h1) _
                    (fun v t hv => hRefs_stable fuel h1 _ (preservedBelow_get_some pAl) v t hv)
                    es1 ts hcf.1
                rw [hcong] at hr
                exact hcf.2 r hr
        | strset ss => dsimp only at hread; simp at hread

theorem setNestedLoop_frame : ∀ (mid : List String) (h : Heap) (cur : Ref) (last : String)
    (v : HVal) (fuel n : Nat), n ≤ cur → n ≤ h.size →
    PreservedBelow n h (setNestedLoop fuel h cur mid last v) := by
  intro mid
  induction mid with
  | nil =>
    intro h cur last v fuel n hcur _
    exact preservedBelow_writeField n h cur last v hcur
  | cons key rest ih =>
    intro h cur last v fuel n hcur hsize
    cases hl : lookupFieldH (h.objFields cur) key with
    | some w =>
      cases w with
      | ref r =>
        simp only [setNestedLoop, hl]
        rcases hc : deepCloneH fuel h (.ref r) with ⟨h1, c⟩
        simp only [hc]
        have pclone : PreservedBelow h.size h h1 := by
          have := deepCloneH_frame fuel h (.ref r)
          rw [hc] at this
          exact this
        have hfresh : h.size ≤ refOf c := by
          have := (deepCloneH_ref_fresh fuel h r).1
          rw [hc] at this
          exact this
        have pw : PreservedBelow n h1 (writeField h1 cur key c) :=
          preservedBelow_writeField n h1 cur key c hcur
        have prest : PreservedBelow n (writeField h1 cur key c)
            (setNestedLoop fuel (writeField h1 cur key c) (refOf c) rest last v) := by
          refine ih _ _ last v fuel n (Nat.le_trans hsize hfresh) ?_
          rw [writeField_size]
          exact Nat.le_trans hsize pclone.1
        exact preservedBelow_trans (preservedBelow_mono hsize pclone)
          (preservedBelow_trans pw prest)
      | prim p =>
        simp only [setNestedLoop, hl]
        rcases ha : h.alloc (.obj []) with ⟨h1, r1⟩
        simp only [ha]
        have palloc : PreservedBelow n h h1 := by
          have := preservedBelow_alloc n h (.obj []) hsize
          rw [ha] at this
          exact this
        have hr1 : r1 = h.size := by
          have : (h.alloc (.obj [])).2 = h.size := alloc_ref h _
          rw [ha] at this
          exact this
        have h1size : h1.size = h.size + 1 := by
          have : (h.alloc (.obj [])).1.size = h.size + 1 := alloc_size h _
          rw [ha] at this
          exact this
        have pw : PreservedBelow n h1 (writeField h1 cur key (.ref r1)) :=
          preservedBelow_writeField n h1 cur key _ hcur
        have prest : PreservedBelow n (writeField h1 cur key (.ref r1))
            (setNestedLoop fuel (writeField h1 cur key (.ref r1)) r1 rest last v) := by
          refine ih _ _ last v fuel n ?_ ?_
          · rw [hr1]; exact hsize
          · rw [writeField_size, h1size]
            exact Nat.le_trans hsize (Nat.le_succ _)
        exact preservedBelow_trans palloc (preservedBelow_trans pw prest)
    | none =>
      simp only [setNestedLoop, hl]
      rcases ha : h.alloc (.obj []) with ⟨h1, r1⟩
      simp only [ha]
      have palloc : PreservedBelow n h h1 := by
        have := preservedBelow_alloc n h (.obj []) hsize
        rw [ha] at this
        exact this
      have hr1 : r1 = h.size := by
        have : (h.alloc (.obj [])).2 = h.size := alloc_ref h _
        rw [ha] at this
        exact this
      have h1size : h1.size = h.size + 1 := by
        have : (h.alloc (.obj [])).1.size = h.size + 1 := alloc_size h _
        rw [ha] at this
        exact this
      have pw : PreservedBelow n h1 (writeField h1 cur key (.ref r1)) :=
        preservedBelow_writeField n h1 cur key _ hcur
      have prest : PreservedBelow n (writeField h1 cur key (.ref r1))
          (setNestedLoop fuel (writeField h1 cur key (.ref r1)) r1 rest last v) := by
        refine ih _ _ last v fuel n ?_ ?_
        · rw [hr1]; exact hsize
        · rw [writeField_size, h1size]
          exact Nat.le_trans hsize (Nat.le_succ _)
      exact preservedBelow_trans palloc (preservedBelow_trans pw prest)

theorem preservedBelow_alloc2 (h : Heap) (c1 c2 : HCell) :
    PreservedBelow h.size h ((h.alloc c1).1.alloc c2).1 ∧
    h.size ≤ ((h.alloc c1).1.alloc c2).2 := by
  constructor
  · exact preservedBelow_trans (preservedBelow_alloc _ _ _ (Nat.le_refl _))
      (preservedBelow_mono (by rw [alloc_size]; exact Nat.le_succ _)
        (preservedBelow_alloc _ _ _ (Nat.le_refl _)))
  · rw [alloc_ref, alloc_size]
    exact Nat.le_succ _

theorem preservedBelow_alloc3 (h : Heap) (c1 c2 c3 : HCell) :
    PreservedBelow h.size h (((h.alloc c1).1.alloc c2).1.alloc c3).1 ∧
    h.size ≤ (((h.alloc c1).1.alloc c2).1.alloc c3).2 := by
  constructor
  · refine preservedBelow_trans (preservedBelow_alloc2 h c1 c2).1 ?_
    refine preservedBelow_mono ?_ (preservedBelow_alloc _ _ _ (Nat.le_refl _))
    rw [alloc_size, alloc_size]
    exact Nat.le_trans (Nat.le_succ _) (Nat.le_succ _)
  · rw [alloc_ref, alloc_size, alloc_size]
    exact Nat.le_trans (Nat.le_succ _) (Nat.le_succ _)

theorem setProperty_parts (h : Heap) (b : HBuilder) (k : String) (v : HVal) :
    ∃ c1 c2, (setProperty h b k v).1 = ((h.alloc c1).1.alloc c2).1 ∧
      (setProperty h b k v).2.actual = (h.alloc c1).2 ∧
      (setProperty h b k v).2.req = ((h.alloc c1).1.alloc c2).2 ∧
      (setProperty h b k v).2.requiredTemplate = b.requiredTemplate :=
  ⟨_, _, rfl, rfl, rfl, rfl⟩

theorem setProperties_parts (h : Heap) (b : HBuilder) (ps : List (String × HVal)) :
    ∃ c1 c2, (setProperties h b ps).1 = ((h.alloc c1).1.alloc c2).1 ∧
      (setProperties h b ps).2.actual = (h.alloc c1).2 ∧
      (setProperties h b ps).2.req = ((h.alloc c1).1.alloc c2).2 ∧
      (setProperties h b ps).2.requiredTemplate = b.requiredTemplate :=
  ⟨_, _, rfl, rfl, rfl, rfl⟩

theorem addToArrayProperty_parts (h : Heap) (b : HBuilder) (k : String) (v : HVal) :
    ∃ c1 c2 c3, (addToArrayProperty h b k v).1 = (((h.alloc c1).1.alloc c2).1.alloc c3).1 ∧
      (addToArrayProperty h b k v).2.actual = ((h.alloc c1).1.alloc c2).2 ∧
      (addToArrayProperty h b k v).2.req = (((h.alloc c1).1.alloc c2).1.alloc c3).2 ∧
      (addToArrayProperty h b k v).2.requiredTemplate = b.requiredTemplate :=
  ⟨_, _, _, rfl, rfl, rfl, rfl⟩

theorem applyOp_frame (fuel : Nat) (h : Heap) (b : HBuilder) (op : BOp) :
    PreservedBelow h.size h (applyOp fuel h b op).1 ∧
    h.size ≤ (applyOp fuel h b op).2.actual ∧
    h.size ≤ (applyOp fuel h b op).2.req ∧
    (applyOp fuel h b op).2.requiredTemplate = b.requiredTemplate := by
  cases op with
  | opSet k v =>
    obtain ⟨c1, c2, e1, e2, e3, e4⟩ := setProperty_parts h b k v
    show PreservedBelow h.size h (setProperty h b k v).1 ∧
      h.size ≤ (setProperty h b k v).2.actual ∧
      h.size ≤ (setProperty h b k v).2.req ∧
      (setProperty h b k v).2.requiredTemplate = b.requiredTemplate
    rw [e1, e2, e3, e4, alloc_ref]
    exact ⟨(preservedBelow_alloc2 h c1 c2).1, Nat.le_refl _,
      (preservedBelow_alloc2 h c1 c2).2, rfl⟩
  | opSetMany ps =>
    obtain ⟨c1, c2, e1, e2, e3, e4⟩ := setProperties_parts h b ps
    show PreservedBelow h.size h (setProperties h b ps).1 ∧
      h.size ≤ (setProperties h b ps).2.actual ∧
      h.size ≤ (setProperties h b ps).2.req ∧
      (setProperties h b ps).2.requiredTemplate = b.requiredTemplate
    rw [e1, e2, e3, e4, alloc_ref]
    exact ⟨(preservedBelow_alloc2 h c1 c2).1, Nat.le_refl _,
      (preservedBelow_alloc2 h c1 c2).2, rfl⟩
  | opAddToArray k v =>
    obtain ⟨c1, c2, c3, e1, e2, e3, e4⟩ := addToArrayProperty_parts h b k v
    show PreservedBelow h.size h (addToArrayProperty h b k v).1 ∧
      h.size ≤ (addToArrayProperty h b k v).2.actual ∧
      h.size ≤ (addToArrayProperty h b k v).2.req ∧
      (addToArrayProperty h b k v).2.requiredTemplate = b.requiredTemplate
    rw [e1, e2, e3, e4]
    refine ⟨(preservedBelow_alloc3 h c1 c2 c3).1, ?_, (preservedBelow_alloc3 h c1 c2 c3).2, rfl⟩
    rw [alloc_ref, alloc_size]
    exact Nat.le_succ _
  | opSetNested path v =>
    have hfresh := deepCloneH_ref_fresh fuel h b.actual
    rcases hc : deepCloneH fuel h (.ref b.actual) with ⟨h1, c⟩
    rw [hc] at hfresh
    have pclone : PreservedBelow h.size h h1 := by
      have := deepCloneH_frame fuel h (.ref b.actual)
      rw [hc] at this
      exact this
    have ploop : PreservedBelow h.size h1
        (setNestedLoop fuel h1 (refOf c) (Cerios.splitDot path).dropLast
          ((Cerios.splitDot path).getLastD ("")) v) :=
      setNestedLoop_frame _ h1 (refOf c) _ v fuel h.size hfresh.1 pclone.1
    have hloopsize : h.size ≤
        (setNestedLoop fuel h1 (refOf c) (Cerios.splitDot path).dropLast
          ((Cerios.splitDot path).getLastD ("")) v).size :=
      Nat.le_trans pclone.1 ploop.1
    refine ⟨?_, ?_, ?_, rfl⟩
    · show PreservedBelow h.size h (setNestedProperty fuel h b path v).1
      simp only [setNestedProperty, hc]
      refine preservedBelow_trans pclone (preservedBelow_trans ploop ?_)
      exact preservedBelow_mono hloopsize (preservedBelow_alloc _ _ _ (Nat.le_refl _))
    · show h.size ≤ (setNestedProperty fuel h b path v).2.actual
      simp only [setNestedProperty, hc]
      exact hfresh.1
    · show h.size ≤ (setNestedProperty fuel h b path v).2.req
      simp only [setNestedProperty, hc]
      rw [alloc_ref]
      exact hloopsize

/-- C2: each of the four transition operations only allocates: the heap
after the operation agrees with the heap before it on every cell that
existed, the freeze and seal marks are untouched, the partial instance
of the new builder is a fresh object distinct from that of the
receiver, every
value readable before is readable unchanged after, and a second
transition applied to the same receiver leaves the readable value of
the first result intact (deep independence of sibling builders). -/
theorem c2_transitions_never_mutate (fuel : Nat) (h : Heap) (b : HBuilder) (op op2 : BOp)
    (hb : b.actual < h.size) :
    HeapExtends (applyOp fuel h b op).1 h ∧
    (applyOp fuel h b op).1.frozenRefs = h.frozenRefs ∧
    (applyOp fuel h b op).1.sealedRefs = h.sealedRefs ∧
    h.size ≤ (applyOp fuel h b op).2.actual ∧
    (applyOp fuel h b op).2.actual ≠ b.actual ∧
    (∀ (fuel2 : Nat) (v : HVal) (t : Cerios.Jx),
      readH fuel2 h v = some t → readH fuel2 (applyOp fuel h b op).1 v = some t) ∧
    (∀ (fuel2 : Nat) (t : Cerios.Jx),
      readH fuel2 (applyOp fuel h b op).1 (.ref (applyOp fuel h b op).2.actual) = some t →
      readH fuel2 (applyOp fuel (applyOp fuel h b op).1 b op2).1
        (.ref (applyOp fuel h b op).2.actual) = some t) := by
  obtain ⟨p1, hact, hreq, _⟩ := applyOp_frame fuel h b op
  have hext : HeapExtends (applyOp fuel h b op).1 h := ⟨p1.1, p1.2.1⟩
  refine ⟨hext, p1.2.2.1, p1.2.2.2, hact, ?_, ?_, ?_⟩
  · exact fun he => Nat.lt_irrefl _ (Nat.lt_of_lt_of_le hb (he ▸ hact))
  · intro fuel2 v t hv
    exact readH_stable fuel2 h _ (fun r c hg =>
      (p1.2.1 r (get_some_lt h r c hg)) ▸ hg) v t hv
  · intro fuel2 t hv
    obtain ⟨q1, _, _, _⟩ := applyOp_frame fuel (applyOp fuel h b op).1 b op2
    exact readH_stable fuel2 _ _ (fun r c hg =>
      (q1.2.1 r (get_some_lt _ r c hg)) ▸ hg) _ t hv

/-- Witness for C2: a concrete builder whose object holds a nested
object, with a setProperty and an addToArrayProperty transition. -/
theorem c2_transitions_never_mutate_witness :
    HeapExtends
      (applyOp 4
        { cells := [.obj [("address", .ref 1)], .obj [("city", .prim (.pstr ("NY")))], .strset []],
          frozenRefs := [], sealedRefs := [] }
        { requiredTemplate := [], actual := 0, req := 2 }
        (.opSet ("name") (.prim (.pstr ("John"))))).1
      { cells := [.obj [("address", .ref 1)], .obj [("city", .prim (.pstr ("NY")))], .strset []],
        frozenRefs := [], sealedRefs := [] } ∧
    (applyOp 4
        { cells := [.obj [("address", .ref 1)], .obj [("city", .prim (.pstr ("NY")))], .strset []],
          frozenRefs := [], sealedRefs := [] }
        { requiredTemplate := [], actual := 0, req := 2 }
        (.opSet ("name") (.prim (.pstr ("John"))))).1.frozenRefs = [] ∧
    (applyOp 4
        { cells := [.obj [("address", .ref 1)], .obj [("city", .prim (.pstr ("NY")))], .strset []],
          frozenRefs := [], sealedRefs := [] }
        { requiredTemplate := [], actual := 0, req := 2 }
        (.opSet ("name") (.prim (.pstr ("John"))))).1.sealedRefs = [] ∧
    ({ cells := [.obj [("address", .ref 1)], .obj [("city", .prim (.pstr ("NY")))], .strset []],
       frozenRefs := [], sealedRefs := [] } : Heap).size ≤
      (applyOp 4
        { cells := [.obj [("address", .ref 1)], .obj [("city", .prim (.pstr ("NY")))], .strset []],
          frozenRefs := [], sealedRefs := [] }
        { requiredTemplate := [], actual := 0, req := 2 }
        (.opSet ("name") (.prim (.pstr ("John"))))).2.actual ∧
    (applyOp 4
        { cells := [.obj [("address", .ref 1)], .obj [("city", .prim (.pstr ("NY")))], .strset []],
          frozenRefs := [], sealedRefs := [] }
        { requiredTemplate := [], actual := 0, req := 2 }
        (.opSet ("name") (.prim (.pstr ("John"))))).2.actual ≠ 0 ∧
    (∀ (fuel2 : Nat) (v : HVal) (t : Cerios.Jx),
      readH fuel2
        { cells := [.obj [("address", .ref 1)], .obj [("city", .prim (.pstr ("NY")))], .strset []],
          frozenRefs := [], sealedRefs := [] } v = some t →
      readH fuel2 (applyOp 4
        { cells := [.obj [("address", .ref 1)], .obj [("city", .prim (.pstr ("NY")))], .strset []],
          frozenRefs := [], sealedRefs := [] }
        { requiredTemplate := [], actual := 0, req := 2 }
        (.opSet ("name") (.prim (.pstr ("John"))))).1 v = some t) ∧
    (∀ (fuel2 : Nat) (t : Cerios.Jx),
      readH fuel2 (applyOp 4
        { cells := [.obj [("address", .ref 1)], .obj [("city", .prim (.pstr ("NY")))], .strset []],
          frozenRefs := [], sealedRefs := [] }
        { requiredTemplate := [], actual := 0, req := 2 }
        (.opSet ("name") (.prim (.pstr ("John"))))).1
        (.ref (applyOp 4
          { cells := [.obj [("address", .ref 1)], .obj [("city", .prim (.pstr ("NY")))], .strset []],
            frozenRefs := [], sealedRefs := [] }
          { requiredTemplate := [], actual := 0, req := 2 }
          (.opSet ("name") (.prim (.pstr ("John"))))).2.actual) = some t →
      readH fuel2 (applyOp 4 (applyOp 4
          { cells := [.obj [("address", .ref 1)], .obj [("city", .prim (.pstr ("NY")))], .strset []],
            frozenRefs := [], sealedRefs := [] }
          { requiredTemplate := [], actual := 0, req := 2 }
          (.opSet ("name") (.prim (.pstr ("John"))))).1
          { requiredTemplate := [], actual := 0, req := 2 }
          (.opAddToArray ("hobbies") (.prim (.pstr ("reading"))))).1
        (.ref (applyOp 4
          { cells := [.obj [("address", .ref 1)], .obj [("city", .prim (.pstr ("NY")))], .strset []],
            frozenRefs := [], sealedRefs := [] }
          { requiredTemplate := [], actual := 0, req := 2 }
          (.opSet ("name") (.prim (.pstr ("John"))))).2.actual) = some t) :=
  c2_transitions_never_mutate 4
    { cells := [.obj [("address", .ref 1)], .obj [("city", .prim (.pstr ("NY")))], .strset []],
      frozenRefs := [], sealedRefs := [] }
    { requiredTemplate := [], actual := 0, req := 2 }
    (.opSet ("name") (.prim (.pstr ("John"))))
    (.opAddToArray ("hobbies") (.prim (.pstr ("reading"))))
    (by decide)

theorem strs_alloc_strset (h : Heap) (ss : List String) :
    (h.alloc (.strset ss)).1.strs (h.alloc (.strset ss)).2 = ss := by
  unfold Heap.strs
  rw [get_alloc_self]

theorem applyOp_req_content (fuel : Nat) (h : Heap) (b : HBuilder) (op : BOp)
    (hreq : b.req < h.size) :
    (applyOp fuel h b op).1.strs (applyOp fuel h b op).2.req = h.strs b.req := by
  cases op with
  | opSet k v =>
    show ((h.alloc (.obj (setFieldH (h.objFields b.actual) k v))).1.alloc
        (.strset (h.strs b.req))).1.strs
      ((h.alloc (.obj (setFieldH (h.objFields b.actual) k v))).1.alloc
        (.strset (h.strs b.req))).2 = h.strs b.req
    exact strs_alloc_strset _ _
  | opSetMany ps =>
    show ((h.alloc (.obj (ps.foldl (fun fs p => setFieldH fs p.1 p.2)
          (h.objFields b.actual)))).1.alloc (.strset (h.strs b.req))).1.strs
      ((h.alloc (.obj (ps.foldl (fun fs p => setFieldH fs p.1 p.2)
          (h.objFields b.actual)))).1.alloc (.strset (h.strs b.req))).2 = h.strs b.req
    exact strs_alloc_strset _ _
  | opAddToArray k v =>
    obtain ⟨c1, c2, c3, e1, e2, e3, e4⟩ := addToArrayProperty_parts h b k v
    have hc3 : ∀ hh : Heap, (applyOp fuel h b (.opAddToArray k v)).1.strs
        (applyOp fuel h b (.opAddToArray k v)).2.req =
        (applyOp fuel h b (.opAddToArray k v)).1.strs
          (applyOp fuel h b (.opAddToArray k v)).2.req := fun _ => rfl
    show (addToArrayProperty h b k v).1.strs (addToArrayProperty h b k v).2.req = h.strs b.req
    rcases hl : lookupFieldH (h.objFields b.actual) k with _ | w
    · show ((((h.alloc _).1.alloc _).1.alloc (.strset (h.strs b.req))).1).strs
        (((h.alloc _).1.alloc _).1.alloc (.strset (h.strs b.req))).2 = h.strs b.req
      exact strs_alloc_strset _ _
    · show ((((h.alloc _).1.alloc _).1.alloc (.strset (h.strs b.req))).1).strs
        (((h.alloc _).1.alloc _).1.alloc (.strset (h.strs b.req))).2 = h.strs b.req
      exact strs_alloc_strset _ _
  | opSetNested path v =>
    rcases hc : deepCloneH fuel h (.ref b.actual) with ⟨h1, c⟩
    have pclone : PreservedBelow h.size h h1 := by
      have := deepCloneH_frame fuel h (.ref b.actual)
      rw [hc] at this
      exact this
    have hfresh : h.size ≤ refOf c := by
      have := (deepCloneH_ref_fresh fuel h b.actual).1
      rw [hc] at this
      exact this
    have ploop : PreservedBelow h.size h1
        (setNestedLoop fuel h1 (refOf c) (Cerios.splitDot path).dropLast
          ((Cerios.splitDot path).getLastD ("")) v) :=
      setNestedLoop_frame _ h1 (refOf c) _ v fuel h.size hfresh pclone.1
    have hstrs : (setNestedLoop fuel h1 (refOf c) (Cerios.splitDot path).dropLast
          ((Cerios.splitDot path).getLastD ("")) v).strs b.req = h.strs b.req := by
      refine strs_congr b.req ?_
      rw [ploop.2.1 b.req hreq, pclone.2.1 b.req hreq]
    show (setNestedProperty fuel h b path v).1.strs (setNestedProperty fuel h b path v).2.req =
      h.strs b.req
    simp only [setNestedProperty, hc]
    rw [← hstrs]
    exact strs_alloc_strset _ _

/-- C5: setRequiredFields overwrites the dynamic builder-level
required-address list with a fresh deduplicated set (replacement, not
append: a second call discards the first), each transition hands the
derived builder its own copy of the list so that a later
setRequiredFields call on the derived builder leaves the earlier
list of the earlier builder untouched, and the effective manifest
is exactly the deduplicated union of the static template and the
current dynamic list. -/
theorem c5_set_required_fields (fuel : Nat) (h : Heap) (b : HBuilder)
    (xs ys : List String) (op : BOp) (hreq : b.req < h.size) :
    (setRequiredFields h b xs).strs b.req = Cerios.jsSetDedup xs ∧
    (setRequiredFields (setRequiredFields h b xs) b ys).strs b.req = Cerios.jsSetDedup ys ∧
    (applyOp fuel h b op).1.strs (applyOp fuel h b op).2.req = h.strs b.req ∧
    (applyOp fuel h b op).2.req ≠ b.req ∧
    (∀ zs, (setRequiredFields (applyOp fuel h b op).1 (applyOp fuel h b op).2 zs).strs b.req =
      h.strs b.req) ∧
    (∀ k, k ∈ getRequiredTemplate h b ↔ (k ∈ b.requiredTemplate ∨ k ∈ h.strs b.req)) ∧
    (getRequiredTemplate h b).Nodup := by
  obtain ⟨p1, _, hfq, _⟩ := applyOp_frame fuel h b op
  refine ⟨?_, ?_, applyOp_req_content fuel h b op hreq, ?_, ?_, ?_, ?_⟩
  · unfold setRequiredFields Heap.strs
    rw [get_write_self h b.req _ hreq]
  · unfold setRequiredFields Heap.strs
    rw [get_write_self _ b.req _ (by rw [write_size]; exact hreq)]
  · exact fun he => Nat.lt_irrefl _ (Nat.lt_of_lt_of_le hreq (he ▸ hfq))
  · intro zs
    unfold setRequiredFields
    refine Eq.trans (strs_congr b.req (get_write_ne _ _ _ b.req
      (fun he => Nat.lt_irrefl _ (Nat.lt_of_lt_of_le hreq (he ▸ hfq)))))
      (strs_congr b.req (p1.2.1 b.req hreq))
  · intro k
    unfold getRequiredTemplate
    rw [Cerios.jsSetDedup_mem]
    exact List.mem_append
  · exact Cerios.jsSetDedup_nodup _

/-- Witness for C5 at a concrete builder, dynamic lists and a
setProperty transition. -/
theorem c5_set_required_fields_witness :
    ((setRequiredFields exHeap exBuilder ["x", "y", "x"]).strs 1 =
      Cerios.jsSetDedup ["x", "y", "x"]) ∧
    ((setRequiredFields (setRequiredFields exHeap exBuilder ["x", "y", "x"])
        exBuilder ["z"]).strs 1 = Cerios.jsSetDedup ["z"]) ∧
    ((applyOp 3 exHeap exBuilder (.opSet ("name") (.prim (.pstr ("n"))))).1.strs
      (applyOp 3 exHeap exBuilder (.opSet ("name") (.prim (.pstr ("n"))))).2.req =
      exHeap.strs 1) ∧
    ((applyOp 3 exHeap exBuilder (.opSet ("name") (.prim (.pstr ("n"))))).2.req ≠ 1) ∧
    (∀ zs, (setRequiredFields
        (applyOp 3 exHeap exBuilder (.opSet ("name") (.prim (.pstr ("n"))))).1
        (applyOp 3 exHeap exBuilder (.opSet ("name") (.prim (.pstr ("n"))))).2 zs).strs 1 =
      exHeap.strs 1) ∧
    (∀ k, k ∈ getRequiredTemplate exHeap exBuilder ↔
      (k ∈ ["t"] ∨ k ∈ exHeap.strs 1)) ∧
    (getRequiredTemplate exHeap exBuilder).Nodup :=
  c5_set_required_fields 3 exHeap exBuilder ["x", "y", "x"] ["z"]
    (.opSet ("name") (.prim (.pstr ("n")))) (by decide)

theorem lockListWith_cells (f : Heap → HVal → Heap)
    (hf : ∀ (h : Heap) (v : HVal), (f h v).cells = h.cells ∧ (f h v).sealedRefs = h.sealedRefs) :
    ∀ (es : List HVal) (h : Heap),
      (lockListWith f h es).cells = h.cells ∧ (lockListWith f h es).sealedRefs = h.sealedRefs := by
  intro es
  induction es with
  | nil => intro h; exact ⟨rfl, rfl⟩
  | cons v es ih =>
    intro h
    simp only [lockListWith]
    exact ⟨(ih (f h v)).1.trans (hf h v).1, (ih (f h v)).2.trans (hf h v).2⟩

theorem lockListWith_cells_seal (f : Heap → HVal → Heap)
    (hf : ∀ (h : Heap) (v : HVal), (f h v).cells = h.cells ∧ (f h v).frozenRefs = h.frozenRefs) :
    ∀ (es : List HVal) (h : Heap),
      (lockListWith f h es).cells = h.cells ∧ (lockListWith f h es).frozenRefs = h.frozenRefs := by
  intro es
  induction es with
  | nil => intro h; exact ⟨rfl, rfl⟩
  | cons v es ih =>
    intro h
    simp only [lockListWith]
    exact ⟨(ih (f h v)).1.trans (hf h v).1, (ih (f h v)).2.trans (hf h v).2⟩

theorem deepFreezeH_zero (h : Heap) (v : HVal) : deepFreezeH 0 h v = h := rfl

theorem deepSealH_zero (h : Heap) (v : HVal) : deepSealH 0 h v = h := rfl

theorem deepFreezeH_cells : ∀ (fuel : Nat) (h : Heap) (v : HVal),
    (deepFreezeH fuel h v).cells = h.cells ∧ (deepFreezeH fuel h v).sealedRefs = h.sealedRefs := by
  intro fuel
  induction fuel with
  | zero => intro h v; exact ⟨rfl, rfl⟩
  | succ fuel ih =>
    intro h v
    rw [deepFreezeH_succ]
    cases v with
    | prim p => exact ⟨rfl, rfl⟩
    | ref r =>
      dsimp only
      cases hg : h.get r with
      | none => simp only [hg]; exact ⟨rfl, rfl⟩
      | some c =>
        cases c with
        | obj fs =>
          simp only [hg]
          exact ⟨(lockListWith_cells _ ih _ h).1, (lockListWith_cells _ ih _ h).2⟩
        | arr es =>
          simp only [hg]
          exact ⟨(lockListWith_cells _ ih _ h).1, (lockListWith_cells _ ih _ h).2⟩
        | strset ss => simp only [hg]; exact ⟨rfl, rfl⟩

theorem deepSealH_cells : ∀ (fuel : Nat) (h : Heap) (v : HVal),
    (deepSealH fuel h v).cells = h.cells ∧ (deepSealH fuel h v).frozenRefs = h.frozenRefs := by
  intro fuel
  induction fuel with
  | zero => intro h v; exact ⟨rfl, rfl⟩
  | succ fuel ih =>
    intro h v
    rw [deepSealH_succ]
    cases v with
    | prim p => exact ⟨rfl, rfl⟩
    | ref r =>
      dsimp only
      cases hg : h.get r with
      | none => simp only [hg]; exact ⟨rfl, rfl⟩
      | some c =>
        cases c with
        | obj fs =>
          simp only [hg]
          exact ⟨(lockListWith_cells_seal _ ih _ h).1, (lockListWith_cells_seal _ ih _ h).2⟩
        | arr es =>
          simp only [hg]
          exact ⟨(lockListWith_cells_seal _ ih _ h).1, (lockListWith_cells_seal _ ih _ h).2⟩
        | strset ss => simp only [hg]; exact ⟨rfl, rfl⟩

theorem deepFreezeH_marks (fuel : Nat) (h : Heap) (r : Ref) (hf : 0 < fuel) :
    r ∈ (deepFreezeH fuel h (.ref r)).frozenRefs := by
  cases fuel with
  | zero => exact absurd hf (Nat.lt_irrefl 0)
  | succ fuel =>
    rw [deepFreezeH_succ]
    dsimp only
    cases hg : h.get r with
    | none => simp only [hg]; exact List.mem_cons_self _ _
    | some c =>
      cases c with
      | obj fs => simp only [hg]; exact List.mem_cons_self _ _
      | arr es => simp only [hg]; exact List.mem_cons_self _ _
      | strset ss => simp only [hg]; exact List.mem_cons_self _ _

theorem deepSealH_marks (fuel : Nat) (h : Heap) (r : Ref) (hf : 0 < fuel) :
    r ∈ (deepSealH fuel h (.ref r)).sealedRefs := by
  cases fuel with
  | zero => exact absurd hf (Nat.lt_irrefl 0)
  | succ fuel =>
    rw [deepSealH_succ]
    dsimp only
    cases hg : h.get r with
    | none => simp only [hg]; exact List.mem_cons_self _ _
    | some c =>
      cases c with
      | obj fs => simp only [hg]; exact List.mem_cons_self _ _
      | arr es => simp only [hg]; exact List.mem_cons_self _ _
      | strset ss => simp only [hg]; exact List.mem_cons_self _ _

/-- C10: a successful freeze or seal finalize of the plain-record
family marks the own partial instance of the builder in place: the returned
reference is the partial instance itself, no cell is copied or changed,
and a subsequent buildUnsafe or buildPartial on the same builder
returns that same, now frozen (respectively sealed) object. -/
theorem c10_lock_builds_act_in_place (lockv : LockVariant) (fuel : Nat) (h : Heap)
    (b : HBuilder) (h2 : Heap) (r : Ref)
    (hrun : runLockBuild lockv fuel h b = (h2, .ok r)) (hfuel : 0 < fuel) :
    r = b.actual ∧ h2.cells = h.cells ∧
    buildUnsafeH h2 b = b.actual ∧ buildPartialH h2 b = b.actual ∧
    ((lockv = .frozenV ∨ lockv = .deepFrozenV) → isFrozenH h2 (buildUnsafeH h2 b)) ∧
    ((lockv = .sealedV ∨ lockv = .deepSealedV) → isSealedH h2 (buildUnsafeH h2 b)) := by
  cases lockv with
  | frozenV =>
    simp only [runLockBuild, buildFrozenH] at hrun
    cases hv : validateRequiredFieldsH h b with
    | error e => rw [hv] at hrun; simp at hrun
    | ok missing =>
      rw [hv] at hrun
      dsimp only at hrun
      by_cases hm : missing.length > 0
      · simp [hm] at hrun
      · rw [if_neg hm] at hrun
        simp only [Prod.mk.injEq, Except.ok.injEq] at hrun
        obtain ⟨hh, hr⟩ := hrun
        subst hh; subst hr
        refine ⟨rfl, rfl, rfl, rfl, fun _ => ?_, fun hc => ?_⟩
        · exact List.mem_cons_self _ _
        · cases hc <;> simp_all
  | deepFrozenV =>
    simp only [runLockBuild, buildDeepFrozenH] at hrun
    cases hv : validateRequiredFieldsH h b with
    | error e => rw [hv] at hrun; simp at hrun
    | ok missing =>
      rw [hv] at hrun
      dsimp only at hrun
      by_cases hm : missing.length > 0
      · simp [hm] at hrun
      · rw [if_neg hm] at hrun
        simp only [Prod.mk.injEq, Except.ok.injEq] at hrun
        obtain ⟨hh, hr⟩ := hrun
        subst hh; subst hr
        refine ⟨rfl, (deepFreezeH_cells fuel h (.ref b.actual)).1, rfl, rfl,
          fun _ => ?_, fun hc => ?_⟩
        · exact deepFreezeH_marks fuel h b.actual hfuel
        · cases hc <;> simp_all
  | sealedV =>
    simp only [runLockBuild, buildSealedH] at hrun
    cases hv : validateRequiredFieldsH h b with
    | error e => rw [hv] at hrun; simp at hrun
    | ok missing =>
      rw [hv] at hrun
      dsimp only at hrun
      by_cases hm : missing.length > 0
      · simp [hm] at hrun
      · rw [if_neg hm] at hrun
        simp only [Prod.mk.injEq, Except.ok.injEq] at hrun
        obtain ⟨hh, hr⟩ := hrun
        subst hh; subst hr
        refine ⟨rfl, rfl, rfl, rfl, fun hc => ?_, fun _ => ?_⟩
        · cases hc <;> simp_all
        · exact Or.inl (List.mem_cons_self _ _)
  | deepSealedV =>
    simp only [runLockBuild, buildDeepSealedH] at hrun
    cases hv : validateRequiredFieldsH h b with
    | error e => rw [hv] at hrun; simp at hrun
    | ok missing =>
      rw [hv] at hrun
      dsimp only at hrun
      by_cases hm : missing.length > 0
      · simp [hm] at hrun
      · rw [if_neg hm] at hrun
        simp only [Prod.mk.injEq, Except.ok.injEq] at hrun
        obtain ⟨hh, hr⟩ := hrun
        subst hh; subst hr
        refine ⟨rfl, (deepSealH_cells fuel h (.ref b.actual)).1, rfl, rfl,
          fun hc => ?_, fun _ => ?_⟩
        · cases hc <;> simp_all
        · exact Or.inl (deepSealH_marks fuel h b.actual hfuel)

/-- Witness for C10: buildFrozen on a builder with no required fields
freezes the partial instance at reference 0 in place. -/
theorem c10_lock_builds_act_in_place_witness :
    (0 : Ref) = exBuilderOk.actual ∧ (freezeRef exHeapOk 0).cells = exHeapOk.cells ∧
    buildUnsafeH (freezeRef exHeapOk 0) exBuilderOk = exBuilderOk.actual ∧
    buildPartialH (freezeRef exHeapOk 0) exBuilderOk = exBuilderOk.actual ∧
    ((LockVariant.frozenV = LockVariant.frozenV ∨ LockVariant.frozenV = LockVariant.deepFrozenV) →
      isFrozenH (freezeRef exHeapOk 0) (buildUnsafeH (freezeRef exHeapOk 0) exBuilderOk)) ∧
    ((LockVariant.frozenV = LockVariant.sealedV ∨ LockVariant.frozenV = LockVariant.deepSealedV) →
      isSealedH (freezeRef exHeapOk 0) (buildUnsafeH (freezeRef exHeapOk 0) exBuilderOk)) :=
  c10_lock_builds_act_in_place .frozenV 1 exHeapOk exBuilderOk (freezeRef exHeapOk 0) 0
    rfl (by decide)

theorem readH_ref_lt (fuel : Nat) (h : Heap) (r : Ref) (t : Cerios.Jx)
    (hread : readH fuel h (.ref r) = some t) : r < h.size := by
  cases fuel with
  | zero => rw [readH_zero] at hread; simp at hread
  | succ fuel =>
    rw [readH_succ] at hread
    dsimp only at hread
    cases hg : h.get r with
    | none => rw [hg] at hread; simp at hread
    | some c => exact get_some_lt h r c hg

/-- C4 (counterexample): for the plain-record family, buildUnsafe
returns the internal partial instance of the builder itself, so the finished
value shares every nested object with it — at this concrete builder the
finished value and the partial instance are the same reference 0 and
both reach the nested object at reference 1. -/
theorem c4_counterexample_shared_structure :
    buildUnsafeH exHeapNested exBuilderNested = exBuilderNested.actual ∧
    exBuilderNested.actual ∈ hRefs 3 exHeapNested
      (.ref (buildUnsafeH exHeapNested exBuilderNested)) ∧
    (1 : Ref) ∈ hRefs 3 exHeapNested (.ref (buildUnsafeH exHeapNested exBuilderNested)) ∧
    (1 : Ref) ∈ hRefs 3 exHeapNested (.ref exBuilderNested.actual) := by
  refine ⟨rfl, ?_, ?_, ?_⟩ <;> decide

/-- C4 (amended): the from-existing-value factory (modelled from the
spec: it deep-copies its input) followed by buildUnsafe reproduces a
value deeply equal to the original, not reference-identical to it and
sharing no nested object or array identity with it; the finished value
is however the own partial instance of the builder, not an independent
copy. -/
theorem c4_from_roundtrip_deep_equal (fuel : Nat) (h : Heap) (rv : Ref) (t : Cerios.Jx)
    (tmpl : List String) (hread : readH fuel h (.ref rv) = some t) :
    readH fuel (fromBuilder fuel h (.ref rv) tmpl).1
      (.ref (buildUnsafeH (fromBuilder fuel h (.ref rv) tmpl).1
        (fromBuilder fuel h (.ref rv) tmpl).2)) = some t ∧
    buildUnsafeH (fromBuilder fuel h (.ref rv) tmpl).1 (fromBuilder fuel h (.ref rv) tmpl).2 ≠ rv ∧
    (∀ r, r ∈ hRefs fuel (fromBuilder fuel h (.ref rv) tmpl).1
        (.ref (buildUnsafeH (fromBuilder fuel h (.ref rv) tmpl).1
          (fromBuilder fuel h (.ref rv) tmpl).2)) →
      r ∉ hRefs fuel h (.ref rv)) ∧
    buildUnsafeH (fromBuilder fuel h (.ref rv) tmpl).1 (fromBuilder fuel h (.ref rv) tmpl).2 =
      (fromBuilder fuel h (.ref rv) tmpl).2.actual := by
  rcases hc : deepCloneH fuel h (.ref rv) with ⟨h1, c⟩
  have hok := deepCloneH_ok fuel h (.ref rv) t hread
  rw [hc] at hok
  have hfresh := deepCloneH_ref_fresh fuel h rv
  rw [hc] at hfresh
  have hcref : c = .ref (refOf c) := hfresh.2
  have hrv : rv < h.size := readH_ref_lt fuel h rv t hread
  have hallp : PreservedBelow h1.size h1 (h1.alloc (.strset [])).1 :=
    preservedBelow_alloc _ _ _ (Nat.le_refl _)
  have hout : buildUnsafeH (fromBuilder fuel h (.ref rv) tmpl).1
      (fromBuilder fuel h (.ref rv) tmpl).2 = refOf c := by
    simp only [fromBuilder, hc, buildUnsafeH]
  have hfb1 : (fromBuilder fuel h (.ref rv) tmpl).1 = (h1.alloc (.strset [])).1 := by
    simp only [fromBuilder, hc]
  refine ⟨?_, ?_, ?_, rfl⟩
  · rw [hout, hfb1, ← hcref]
    exact readH_stable fuel h1 _ (preservedBelow_get_some hallp) c t hok.1
  · rw [hout]
    intro he
    exact Nat.lt_irrefl _ (Nat.lt_of_lt_of_le hrv (he ▸ hfresh.1))
  · intro r hr
    rw [hout, hfb1, ← hcref] at hr
    have hstab : hRefs fuel (h1.alloc (.strset [])).1 c = hRefs fuel h1 c :=
      hRefs_stable fuel h1 _ (preservedBelow_get_some hallp) c t hok.1
    rw [hstab] at hr
    have hge : h.size ≤ r := hok.2 r hr
    intro hmem
    exact Nat.lt_irrefl _ (Nat.lt_of_lt_of_le
      (hRefs_bounded fuel h (.ref rv) t hread r hmem) hge)

/-- Witness for C4: the round trip at the concrete nested heap. -/
theorem c4_from_roundtrip_deep_equal_witness :
    readH 3 (fromBuilder 3 exHeapNested (.ref 0) []).1
      (.ref (buildUnsafeH (fromBuilder 3 exHeapNested (.ref 0) []).1
        (fromBuilder 3 exHeapNested (.ref 0) []).2)) =
      some (.obj [("address", .obj [("city", .prim (.pstr ("NY")))])]) ∧
    buildUnsafeH (fromBuilder 3 exHeapNested (.ref 0) []).1
      (fromBuilder 3 exHeapNested (.ref 0) []).2 ≠ 0 ∧
    (∀ r, r ∈ hRefs 3 (fromBuilder 3 exHeapNested (.ref 0) []).1
        (.ref (buildUnsafeH (fromBuilder 3 exHeapNested (.ref 0) []).1
          (fromBuilder 3 exHeapNested (.ref 0) []).2)) →
      r ∉ hRefs 3 exHeapNested (.ref 0)) ∧
    buildUnsafeH (fromBuilder 3 exHeapNested (.ref 0) []).1
      (fromBuilder 3 exHeapNested (.ref 0) []).2 =
      (fromBuilder 3 exHeapNested (.ref 0) []).2.actual :=
  c4_from_roundtrip_deep_equal 3 exHeapNested 0
    (.obj [("address", .obj [("city", .prim (.pstr ("NY")))])]) [] rfl

end CeriosH
